import Mathlib

/-! # AUM generator (`apps/aum-go/internal/aum`): embedding and verification

The Go package computes, for every NAV date, one AUM row per holding and one
aggregate row per date.  This file embeds `models.go`, `generator.go`,
`insert.go` and `verify.go`.

Modelling conventions.

* `float64` is an arbitrary carrier `F` with `0`, `+`, `*`, `/` and a cast
  from `int`; nothing is assumed about these operations, so every equality
  below is an equality of the expression the code evaluates, in the order
  the code evaluates it.
* Go `int` is `Int` (the code does no arithmetic on its `int` fields, it
  only compares them), lengths and counters are `Nat`.
* A Go `map[K]V` is an association list read with `List.lookup`; `len(m) == 0`
  is emptiness of the list.
* The database behind `g.pool` is explicit state (`World`): the two written
  tables, a statement clock, and a log of the calls made.  Query results on
  the upstream tables are inputs (`ReadSide`).  Failures of statements on the
  written tables are decided by an oracle `Faults`.
* The worker pool of `Generate` is sequential: the dates are handled one at a
  time in the order they were put on the channel.
-/

set_option linter.unusedSectionVars false

namespace Aum

/-! ## models.go -/

/-- Go `error` values: a driver error, or `fmt.Errorf("ctx: %w", inner)`. -/
inductive Err where
  | db (msg : String)
  | wrap (ctx : String) (inner : Err)
deriving DecidableEq, Repr

/-- A Go map, as an association list. -/
abbrev GoMap (K V : Type) := List (K × V)

/-- Row of the NAV-date list; `Date` is the `time.Time`, as a day number. -/
structure navDateRow where
  Date : Int
  DateStr : String
deriving DecidableEq, Repr

structure fundInfo (F : Type) where
  ManagementFeeRate : F
  ValuationBasis : Int

structure holdingRow (F : Type) where
  InvestorID : String
  FundID : Int
  UnitsAfter : F

structure aumRow (F : Type) where
  InvestorID : String
  AgentID : Int
  FundID : Int
  DateStr : String
  Units : F
  NavPerUnit : F
  AUMValue : F
  Days : Int
  ManagementFee : F

/-! ## generator.go: constants and the row-building loop of `processDate` -/

/-- Rows per `aum_investor_daily` insert batch. -/
def batchSize : Nat := 10000

/-- The key `fmt.Sprintf("%d-%s", h.FundID, nd.DateStr)` of the day-gap table. -/
def daysKey (fundID : Int) (dateStr : String) : String :=
  toString fundID ++ "-" ++ dateStr

/-! ## load.go: the day-gap table of `precalcDays` -/

/-- Row of the query of `precalcDays`: `fund_id`, the date formatted as
`2006-01-02`, and `days`, the gap to the fund's previous NAV. -/
structure dayGapRow where
  FundID : Int
  DateStr : String
  Days : Int
deriving DecidableEq, Repr

/-- The loop `for rows.Next()` of `precalcDays` over the rows of its query: a gap
below 1 becomes 1 and is stored under the key of `(fundID, date)`; `out[k] = v`
puts the pair in front, where `List.lookup` finds the latest assignment. -/
def precalcDaysLoop : List dayGapRow → GoMap String Int → GoMap String Int
  | [], out => out
  | g :: gs, out =>
    let days := if g.Days < 1 then 1 else g.Days
    precalcDaysLoop gs ((daysKey g.FundID g.DateStr, days) :: out)

section Kernel

variable {F : Type} [Zero F] [Add F] [Mul F] [Div F] [IntCast F]

/-- The row appended for holding `h` once both lookups succeeded
(generator.go lines 177-202). -/
def mkRow (nd : navDateRow) (fundMap : GoMap Int (fundInfo F))
    (fundDateDaysMap : GoMap String Int) (h : holdingRow F) (navPerUnit : F)
    (agentID : Int) : aumRow F :=
  let units := h.UnitsAfter
  let aumValue := units * navPerUnit
  let fund := (fundMap.lookup h.FundID).getD ⟨0, 0⟩
  let mgmtRate := fund.ManagementFeeRate / ((100 : Int) : F)
  let valuationBasis := if fund.ValuationBasis = 0 then 365 else fund.ValuationBasis
  let days0 := (fundDateDaysMap.lookup (daysKey h.FundID nd.DateStr)).getD 0
  let days := if days0 < 1 then 1 else days0
  let managementFee := (aumValue * mgmtRate / ((valuationBasis : Int) : F)) * ((days : Int) : F)
  { InvestorID := h.InvestorID
    AgentID := agentID
    FundID := h.FundID
    DateStr := nd.DateStr
    Units := units
    NavPerUnit := navPerUnit
    AUMValue := aumValue
    Days := days
    ManagementFee := managementFee }

/-- The loop `for _, h := range holdings` of `processDate`; `rows` is the
slice built so far. -/
def buildRows (nd : navDateRow) (fundMap : GoMap Int (fundInfo F))
    (investorAgentMap : GoMap String Int) (fundDateDaysMap : GoMap String Int)
    (navMap : GoMap Int F) : List (holdingRow F) → List (aumRow F) → List (aumRow F)
  | [], rows => rows
  | h :: hs, rows =>
    match navMap.lookup h.FundID with
    | none => buildRows nd fundMap investorAgentMap fundDateDaysMap navMap hs rows
    | some navPerUnit =>
      match investorAgentMap.lookup h.InvestorID with
      | none => buildRows nd fundMap investorAgentMap fundDateDaysMap navMap hs rows
      | some agentID =>
        buildRows nd fundMap investorAgentMap fundDateDaysMap navMap hs
          (rows ++ [mkRow nd fundMap fundDateDaysMap h navPerUnit agentID])

/-- The loop `for _, r := range rows` that accumulates the two totals. -/
def sumTotals : List (aumRow F) → F × F → F × F
  | [], acc => acc
  | r :: rs, (totalAUM, totalMgmtFee) =>
    sumTotals rs (totalAUM + r.AUMValue, totalMgmtFee + r.ManagementFee)

end Kernel

/-! ## The database behind `g.pool` -/

/-- Row of `aum_daily`; the two timestamps are readings of the statement clock. -/
structure aumDailyRow (F : Type) where
  date : String
  aum_value : F
  management_fee : F
  created_at : Nat
  updated_at : Nat

/-- Calls recorded in the log, with their arguments and what they returned. -/
inductive Event (F : Type) where
  | processDate (nd : navDateRow)
  | insertAUMBatch (rows : List (aumRow F)) (n : Nat) (err : Option Err)
  | insertAumDaily (dateStr : String) (aumValue managementFee : F) (err : Option Err)
  | Verify

/-- State of the store and of the run: the two written tables, the number of
statements sent so far (also the reading of `time.Now()`), and the call log. -/
structure World (F : Type) where
  aum_investor_daily : List (aumRow F)
  aum_daily : List (aumDailyRow F)
  clock : Nat
  log : List (Event F)

/-- Failure oracle for statements on the written tables: `flt c i` is the error,
if any, of result `i` of the statement or batch sent at clock `c`. -/
abbrev Faults := Nat → Nat → Option Err

/-- The oracle of a run in which no statement fails. -/
def noFaults : Faults := fun _ _ => none

/-- Query results on the upstream tables (`fund_navs`, `funds`,
`agent_investors`, `investor_holdings`, `transactions`), as returned by the
functions of `load.go` and by the holdings count of `verify.go`. -/
structure ReadSide (F : Type) where
  loadNAVDates : Except Err (List navDateRow)
  loadFunds : Except Err (GoMap Int (fundInfo F))
  loadAgentInvestors : Except Err (GoMap String Int)
  precalcDays : Except Err (GoMap String Int)
  loadNAVsForDate : String → Except Err (GoMap Int F)
  loadHoldingsForDate : String → Except Err (List (holdingRow F))
  countHoldings : Except Err Nat

section Store

variable {F : Type}

/-- One more statement has been sent. -/
def World.tick (w : World F) : World F :=
  { w with clock := w.clock + 1 }

/-- Two rows collide on the unique key `(investor_id, fund_id, date)`. -/
def sameKey (x r : aumRow F) : Bool :=
  x.InvestorID == r.InvestorID && x.FundID == r.FundID && x.DateStr == r.DateStr

/-- The statement `INSERT INTO aum_investor_daily ... ON CONFLICT (investor_id, fund_id, date)
DO NOTHING` of insert.go. -/
def insertIgnore (t : List (aumRow F)) (r : aumRow F) : List (aumRow F) :=
  if t.any (fun x => sameKey x r) then t else t ++ [r]

/-- The statement `INSERT INTO aum_daily ... ON CONFLICT (date) DO UPDATE SET aum_value,
management_fee, updated_at` of insert.go. -/
def upsertAumDaily (t : List (aumDailyRow F)) (dateStr : String) (aumValue managementFee : F)
    (now : Nat) : List (aumDailyRow F) :=
  if t.any (fun x => x.date == dateStr) then
    t.map (fun x =>
      if x.date == dateStr then
        { x with aum_value := aumValue, management_fee := managementFee, updated_at := now }
      else x)
  else t ++ [⟨dateStr, aumValue, managementFee, now, now⟩]

/-! ## insert.go -/

/-- The loop `for i := 0; i < len(rows); i++ { br.Exec() }` of `insertAUMBatch`,
from index `i` with `k` rows left; `res` gives the result of each `br.Exec()`. -/
def execLoop (res : Nat → Option Err) (i : Nat) : Nat → Nat × Option Err
  | 0 => (i, none)
  | k + 1 =>
    match res i with
    | some err => (i, some (Err.wrap ("exec row " ++ toString i) err))
    | none => execLoop res (i + 1) k

/-- `insertAUMBatch`: an empty slice returns `0, nil` without touching the store;
otherwise the batch is sent and the results are read in order up to the first
error.  The store keeps the rows before the first failing one (row-level
semantics of the pipelined batch). -/
def insertAUMBatch (flt : Faults) (w : World F) (rows : List (aumRow F)) :
    World F × Nat × Option Err :=
  if rows.length = 0 then
    ({ w with log := w.log ++ [Event.insertAUMBatch rows 0 none] }, 0, none)
  else
    let r := execLoop (flt w.clock) 0 rows.length
    ({ aum_investor_daily := (rows.take r.1).foldl insertIgnore w.aum_investor_daily
       aum_daily := w.aum_daily
       clock := w.clock + 1
       log := w.log ++ [Event.insertAUMBatch rows r.1 r.2] }, r.1, r.2)

/-- `insertAumDaily`: one upsert statement, stamped with `time.Now()`. -/
def insertAumDaily (flt : Faults) (w : World F) (dateStr : String)
    (aumValue managementFee : F) : World F × Option Err :=
  let now := w.clock
  match flt w.clock 0 with
  | some err =>
    let e := Err.wrap "insert aum_daily" err
    ({ w with clock := w.clock + 1
              log := w.log ++ [Event.insertAumDaily dateStr aumValue managementFee (some e)] },
     some e)
  | none =>
    ({ aum_investor_daily := w.aum_investor_daily
       aum_daily := upsertAumDaily w.aum_daily dateStr aumValue managementFee now
       clock := w.clock + 1
       log := w.log ++ [Event.insertAumDaily dateStr aumValue managementFee none] }, none)

/-- The loop `for i := 0; i < len(rows); i += batchSize` of `processDate`. -/
def insertLoop (flt : Faults) (rows : List (aumRow F)) (w : World F) (i inserted : Nat) :
    World F × Nat × Option Err :=
  if i < rows.length then
    let e := if i + batchSize > rows.length then rows.length else i + batchSize
    let batch := (rows.take e).drop i
    let r := insertAUMBatch flt w batch
    match r.2.2 with
    | some err => (r.1, inserted, some err)
    | none => insertLoop flt rows r.1 (i + batchSize) (inserted + r.2.1)
  else (w, inserted, none)
termination_by rows.length - i
decreasing_by
  simp only [batchSize]
  omega

/-- `loadAumDailyDates` of load.go: the dates of `aum_daily`, as a `map[string]bool`. -/
def loadAumDailyDates (flt : Faults) (w : World F) : World F × Except Err (GoMap String Bool) :=
  match flt w.clock 0 with
  | some err => (w.tick, Except.error (Err.wrap "query aum_daily dates" err))
  | none =>
    match flt w.clock 1 with
    | some err => (w.tick, Except.error err)
    | none => (w.tick, Except.ok (w.aum_daily.map (fun r => (r.date, true))))

end Store

/-! ## generator.go: `processDate` -/

section Pipeline

variable {F : Type} [Zero F] [Add F] [Mul F] [Div F] [IntCast F]

/-- `processDate`: the returned triple is the store afterwards, the `int` and
the `error` of the Go function. -/
def processDate (rs : ReadSide F) (flt : Faults) (w : World F) (nd : navDateRow)
    (fundMap : GoMap Int (fundInfo F)) (investorAgentMap : GoMap String Int)
    (fundDateDaysMap : GoMap String Int) : World F × Nat × Option Err :=
  let w0 : World F := { w with log := w.log ++ [Event.processDate nd] }
  match rs.loadNAVsForDate nd.DateStr with
  | Except.error err => (w0, 0, some err)
  | Except.ok navMap =>
    if navMap.length = 0 then (w0, 0, none)
    else
      match rs.loadHoldingsForDate nd.DateStr with
      | Except.error err => (w0, 0, some err)
      | Except.ok holdings =>
        if holdings.length = 0 then (w0, 0, none)
        else
          let rows := buildRows nd fundMap investorAgentMap fundDateDaysMap navMap holdings []
          let r := insertLoop flt rows w0 0 0
          match r.2.2 with
          | some err => (r.1, r.2.1, some err)
          | none =>
            let totals := sumTotals rows (0, 0)
            let u := insertAumDaily flt r.1 nd.DateStr totals.1 totals.2
            match u.2 with
            | some err => (u.1, r.2.1, some err)
            | none => (u.1, r.2.1, none)

/-! ## verify.go -/

/-- The loop of `Verify` that collects the NAV dates absent from `aumDateSet`. -/
def collectMissing (aumDateSet : GoMap String Bool) :
    List navDateRow → List String → List String
  | [], missing => missing
  | nd :: nds, missing =>
    if !((aumDateSet.lookup nd.DateStr).getD false) then
      collectMissing aumDateSet nds (missing ++ [nd.DateStr])
    else collectMissing aumDateSet nds missing

/-- What `Verify` prints after the summary: the SUCCESS line, or the WARNING line
with the count, the dates listed, and the `... and %d more` line when present. -/
inductive Outcome where
  | success
  | warning (count : Nat) (dates : List String) (more : Option Nat)
deriving DecidableEq, Repr

/-- The output of `Verify`: the three counts of the summary and the outcome. -/
structure VerifyReport where
  navDates : Nat
  aumCount : Nat
  holdingsCount : Nat
  outcome : Outcome
deriving DecidableEq, Repr

/-- The final `if len(missing) == 0 ... else ...` of `Verify`. -/
def reportMissing (missing : List String) : Outcome :=
  if missing.length = 0 then Outcome.success
  else if missing.length ≤ 10 then Outcome.warning missing.length missing none
  else Outcome.warning missing.length (missing.take 10) (some (missing.length - 10))

/-- `Verify`: `Except.ok` carries what was printed when the Go function returns `nil`. -/
def Verify (rs : ReadSide F) (flt : Faults) (w : World F) :
    World F × Except Err VerifyReport :=
  let w0 : World F := { w with log := w.log ++ [Event.Verify] }
  match rs.loadNAVDates with
  | Except.error err => (w0, Except.error (Err.wrap "load nav dates" err))
  | Except.ok navDates =>
    match flt w0.clock 0 with
    | some err => (w0.tick, Except.error (Err.wrap "count aum" err))
    | none =>
      let w1 := w0.tick
      let aumCount := w1.aum_investor_daily.length
      match rs.countHoldings with
      | Except.error err => (w1, Except.error (Err.wrap "count holdings" err))
      | Except.ok holdingsCount =>
        match flt w1.clock 0 with
        | some err => (w1.tick, Except.error (Err.wrap "query aum dates" err))
        | none =>
          match flt w1.clock 1 with
          | some err => (w1.tick, Except.error err)
          | none =>
            let aumDateSet : GoMap String Bool :=
              w1.aum_investor_daily.map (fun r => (r.DateStr, true))
            let missing := collectMissing aumDateSet navDates []
            (w1.tick,
              Except.ok ⟨navDates.length, aumCount, holdingsCount, reportMissing missing⟩)

/-! ## generator.go: `Generate` -/

/-- The loop of `Generate` that keeps the NAV dates without an `aum_daily` row. -/
def selectToProcess (aumDailyDates : GoMap String Bool) :
    List navDateRow → List navDateRow → List navDateRow
  | [], toProcess => toProcess
  | nd :: nds, toProcess =>
    if !((aumDailyDates.lookup nd.DateStr).getD false) then
      selectToProcess aumDailyDates nds (toProcess ++ [nd])
    else selectToProcess aumDailyDates nds toProcess

/-- The worker pool, one date at a time in channel order: a date whose
`processDate` fails is logged and skipped, the others add to the two counters
`(totalProcessed, totalDatesProcessed)`. -/
def runWorkers (rs : ReadSide F) (flt : Faults) (fundMap : GoMap Int (fundInfo F))
    (investorAgentMap : GoMap String Int) (fundDateDaysMap : GoMap String Int) :
    List navDateRow → World F × Nat × Nat → World F × Nat × Nat
  | [], s => s
  | nd :: nds, (w, totalProcessed, totalDatesProcessed) =>
    let r := processDate rs flt w nd fundMap investorAgentMap fundDateDaysMap
    match r.2.2 with
    | some _ =>
      runWorkers rs flt fundMap investorAgentMap fundDateDaysMap nds
        (r.1, totalProcessed, totalDatesProcessed)
    | none =>
      runWorkers rs flt fundMap investorAgentMap fundDateDaysMap nds
        (r.1, totalProcessed + r.2.1, totalDatesProcessed + 1)

/-- What a call of `Generate` leaves: the store, the two counters it prints, and
its return value (the result of `Verify` when it gets that far). -/
structure GenerateResult (F : Type) where
  world : World F
  totalProcessed : Nat
  totalDatesProcessed : Nat
  result : Except Err VerifyReport

/-- `Generate`. -/
def Generate (rs : ReadSide F) (flt : Faults) (w : World F) : GenerateResult F :=
  match rs.loadNAVDates with
  | Except.error err => ⟨w, 0, 0, Except.error err⟩
  | Except.ok navDates =>
    let l := loadAumDailyDates flt w
    match l.2 with
    | Except.error err => ⟨l.1, 0, 0, Except.error err⟩
    | Except.ok aumDailyDates =>
      let toProcess := selectToProcess aumDailyDates navDates []
      if toProcess.length = 0 then
        let v := Verify rs flt l.1
        ⟨v.1, 0, 0, v.2⟩
      else
        match rs.loadFunds with
        | Except.error err => ⟨l.1, 0, 0, Except.error err⟩
        | Except.ok fundMap =>
          match rs.loadAgentInvestors with
          | Except.error err => ⟨l.1, 0, 0, Except.error err⟩
          | Except.ok investorAgentMap =>
            match rs.precalcDays with
            | Except.error err => ⟨l.1, 0, 0, Except.error err⟩
            | Except.ok fundDateDaysMap =>
              let s := runWorkers rs flt fundMap investorAgentMap fundDateDaysMap toProcess
                (l.1, 0, 0)
              let v := Verify rs flt s.1
              ⟨v.1, s.2.1, s.2.2, v.2⟩

end Pipeline

/-! ## Reading the log -/

section Log

variable {F : Type}

/-- The slices passed to `insertAUMBatch`, in call order. -/
def batchesOf : List (Event F) → List (List (aumRow F))
  | [] => []
  | Event.insertAUMBatch rows _ _ :: es => rows :: batchesOf es
  | _ :: es => batchesOf es

/-- The dates passed to `processDate`, in call order. -/
def datesOf : List (Event F) → List navDateRow
  | [] => []
  | Event.processDate nd :: es => nd :: datesOf es
  | _ :: es => datesOf es

/-- The calls logged while the store went from `w` to `w'`. -/
def newCalls (w w' : World F) : List (Event F) :=
  w'.log.drop w.log.length

/-- The log entry is a call of `insertAUMBatch`. -/
def Event.isBatch : Event F → Bool
  | Event.insertAUMBatch _ _ _ => true
  | _ => false

/-- The error returned by a logged write call, if any. -/
def Event.err : Event F → Option Err
  | Event.insertAUMBatch _ _ e => e
  | Event.insertAumDaily _ _ _ e => e
  | _ => none

end Log

section Paths

variable {F : Type}

/-- The result of `processDate` on its four paths that return before the row loop
(a failed load, no NAVs, no holdings), `none` when the row loop is reached. -/
def quietResult (rs : ReadSide F) (nd : navDateRow) : Option (Option Err) :=
  match rs.loadNAVsForDate nd.DateStr with
  | Except.error e => some (some e)
  | Except.ok navMap =>
    if navMap.length = 0 then some none
    else
      match rs.loadHoldingsForDate nd.DateStr with
      | Except.error e => some (some e)
      | Except.ok holdings => if holdings.length = 0 then some none else none

end Paths

/-! ## Concrete scenarios

Fund 1 (rate 1.5, basis 365) publishes a NAV on Friday 2023-12-29, Monday
2024-01-01 and 2024-01-02; fund 2 publishes none.  Investor `I1` (agent 10) holds 100 units of
fund 1 and 7 units of fund 2 from 2024-01-01; investor `I2` has no agent and
holds 40 units of fund 1.  Amounts are rationals. -/

section Scenarios

def day0 : navDateRow := ⟨19720, "2023-12-29"⟩

def day1 : navDateRow := ⟨19723, "2024-01-01"⟩

def day2 : navDateRow := ⟨19724, "2024-01-02"⟩

def funds1 : GoMap Int (fundInfo ℚ) := [(1, ⟨3 / 2, 365⟩)]

def agents1 : GoMap String Int := [("I1", 10)]

/-- The rows of the day-gap query: the NAVs of fund 1 and their gaps. -/
def gapRows1 : List dayGapRow :=
  [⟨1, "2023-12-29", 1⟩, ⟨1, "2024-01-01", 3⟩, ⟨1, "2024-01-02", 1⟩]

def gaps1 : GoMap String Int := precalcDaysLoop gapRows1 []

def holdings1 : List (holdingRow ℚ) := [⟨"I1", 1, 100⟩, ⟨"I2", 1, 40⟩, ⟨"I1", 2, 7⟩]

def scenario1 : ReadSide ℚ where
  loadNAVDates := Except.ok [day0, day1, day2]
  loadFunds := Except.ok funds1
  loadAgentInvestors := Except.ok agents1
  precalcDays := Except.ok gaps1
  loadNAVsForDate := fun d =>
    if d = "2024-01-02" then Except.ok [(1, 25 / 2)]
    else if d = "2024-01-01" then Except.ok [(1, 12)]
    else if d = "2023-12-29" then Except.ok [(1, 59 / 5)]
    else Except.ok []
  loadHoldingsForDate := fun d =>
    if d = "2024-01-02" then Except.ok holdings1
    else if d = "2024-01-01" then Except.ok holdings1
    else Except.ok []
  countHoldings := Except.ok 3

/-- The row expected on 2024-01-01 for `I1` in fund 1: three days since the NAV of
2023-12-29. -/
def row1 : aumRow ℚ :=
  ⟨"I1", 10, 1, "2024-01-01", 100, 12, 1200, 3, 1200 * 0.015 / 365 * 3⟩

/-- The row expected on 2024-01-02 for `I1` in fund 1. -/
def row2 : aumRow ℚ := ⟨"I1", 10, 1, "2024-01-02", 100, 25 / 2, 1250, 1, 1250 * 0.015 / 365⟩

/-- The store before the first run. -/
def emptyWorld : World ℚ := ⟨[], [], 0, []⟩

/-- The store after a run that stopped on 2024-01-02 between the row insert and the
aggregate upsert: the row is there, the `aum_daily` row is not. -/
def afterCrash : World ℚ := ⟨[row2], [], 1, []⟩

end Scenarios

/-! ## The key of the day-gap table -/

section KeyLemmas

theorem digitChar_ne_dash (m : Nat) (h : m < 10) : Nat.digitChar m ≠ '-' := by
  interval_cases m <;> decide

theorem digitChar_val (m : Nat) (h : m < 10) : (Nat.digitChar m).toNat - 48 = m := by
  interval_cases m <;> rfl

theorem toDigitsCore_no_dash (fuel : Nat) : ∀ (n : Nat) (ds : List Char),
    (∀ c ∈ ds, c ≠ '-') → ∀ c ∈ Nat.toDigitsCore 10 fuel n ds, c ≠ '-' := by
  induction fuel with
  | zero => intro n ds h; simpa [Nat.toDigitsCore] using h
  | succ fuel ih =>
    intro n ds h
    have hd : ∀ c ∈ Nat.digitChar (n % 10) :: ds, c ≠ '-' := by
      intro c hc
      rcases List.mem_cons.mp hc with hc | hc
      · rw [hc]; exact digitChar_ne_dash _ (Nat.mod_lt _ (by decide))
      · exact h c hc
    simp only [Nat.toDigitsCore]
    split
    · exact hd
    · exact ih _ _ hd

theorem toDigitsCore_ne_nil (fuel : Nat) : ∀ (n : Nat) (ds : List Char),
    Nat.toDigitsCore 10 (fuel + 1) n ds ≠ [] := by
  induction fuel with
  | zero =>
    intro n ds
    simp only [Nat.toDigitsCore]
    split <;> simp
  | succ fuel ih =>
    intro n ds
    have h := ih (n / 10) (Nat.digitChar (n % 10) :: ds)
    rw [Nat.toDigitsCore]
    split
    · simp
    · exact h

/-- Reading the decimal digits back gives the number. -/
theorem toDigitsCore_val (fuel : Nat) : ∀ (n : Nat) (ds : List Char), n < fuel →
    (Nat.toDigitsCore 10 fuel n ds).foldl (fun a c => 10 * a + (c.toNat - 48)) 0
      = ds.foldl (fun a c => 10 * a + (c.toNat - 48)) n := by
  induction fuel with
  | zero => intro n ds h; omega
  | succ fuel ih =>
    intro n ds h
    simp only [Nat.toDigitsCore]
    have hv := digitChar_val (n % 10) (Nat.mod_lt _ (by decide))
    split
    · simp only [List.foldl_cons, hv]
      congr 1
      omega
    · rw [ih (n / 10) _ (by omega)]
      simp only [List.foldl_cons, hv]
      congr 1
      omega

theorem toDigits_inj (m n : Nat) (h : Nat.toDigits 10 m = Nat.toDigits 10 n) : m = n := by
  have hm := toDigitsCore_val (m + 1) m [] (by omega)
  have hn := toDigitsCore_val (n + 1) n [] (by omega)
  unfold Nat.toDigits at h
  rw [h, hn] at hm
  simpa using hm.symm

theorem toDigits_shape (n : Nat) :
    Nat.toDigits 10 n ≠ [] ∧ ∀ c ∈ Nat.toDigits 10 n, c ≠ '-' :=
  ⟨toDigitsCore_ne_nil n n [], toDigitsCore_no_dash (n + 1) n [] (by simp)⟩

theorem toString_int_data (f : Int) :
    (toString f).data = (match f with
      | Int.ofNat m => Nat.toDigits 10 m
      | Int.negSucc m => '-' :: Nat.toDigits 10 (m + 1)) := by
  cases f with
  | ofNat m => rfl
  | negSucc m => rfl

theorem append_dash_inj (ds₁ ds₂ b₁ b₂ : List Char) (h₁ : ∀ c ∈ ds₁, c ≠ '-')
    (h₂ : ∀ c ∈ ds₂, c ≠ '-') (h : ds₁ ++ '-' :: b₁ = ds₂ ++ '-' :: b₂) :
    ds₁ = ds₂ ∧ b₁ = b₂ := by
  induction ds₁ generalizing ds₂ with
  | nil =>
    cases ds₂ with
    | nil => simpa using h
    | cons c cs =>
      simp only [List.nil_append, List.cons_append, List.cons.injEq] at h
      exact absurd h.1.symm (h₂ c (by simp))
  | cons a as ih =>
    cases ds₂ with
    | nil =>
      simp only [List.nil_append, List.cons_append, List.cons.injEq] at h
      exact absurd h.1 (h₁ a (by simp))
    | cons c cs =>
      simp only [List.cons_append, List.cons.injEq] at h
      obtain ⟨h3, h4⟩ :=
        ih cs (fun x hx => h₁ x (by simp [hx])) (fun x hx => h₂ x (by simp [hx])) h.2
      exact ⟨by rw [h.1, h3], h4⟩

/-- The key `"%d-%s"` determines the fund and the date: two pairs with the same
key are the same pair. -/
theorem daysKey_inj (f₁ f₂ : Int) (d₁ d₂ : String) (h : daysKey f₁ d₁ = daysKey f₂ d₂) :
    f₁ = f₂ ∧ d₁ = d₂ := by
  have hdata : (toString f₁).data ++ '-' :: d₁.data = (toString f₂).data ++ '-' :: d₂.data := by
    have := congrArg String.data h
    simpa [daysKey, String.data_append] using this
  rw [toString_int_data, toString_int_data] at hdata
  cases f₁ with
  | ofNat m =>
    cases f₂ with
    | ofNat n =>
      simp only [] at hdata
      obtain ⟨h1, h2⟩ := append_dash_inj _ _ _ _ (toDigits_shape m).2 (toDigits_shape n).2 hdata
      exact ⟨by rw [toDigits_inj m n h1], String.ext h2⟩
    | negSucc n =>
      simp only [] at hdata
      obtain ⟨h0, hno⟩ := toDigits_shape m
      cases hm : Nat.toDigits 10 m with
      | nil => exact absurd hm h0
      | cons c cs =>
        rw [hm] at hdata
        simp only [List.cons_append, List.cons.injEq] at hdata
        exact absurd hdata.1 (hno c (by rw [hm]; simp))
  | negSucc m =>
    cases f₂ with
    | ofNat n =>
      simp only [] at hdata
      obtain ⟨h0, hno⟩ := toDigits_shape n
      cases hn : Nat.toDigits 10 n with
      | nil => exact absurd hn h0
      | cons c cs =>
        rw [hn] at hdata
        simp only [List.cons_append, List.cons.injEq] at hdata
        exact absurd hdata.1.symm (hno c (by rw [hn]; simp))
    | negSucc n =>
      simp only [List.cons_append, List.cons.injEq, true_and] at hdata
      obtain ⟨h1, h2⟩ := append_dash_inj _ _ _ _ (toDigits_shape (m + 1)).2
        (toDigits_shape (n + 1)).2 hdata
      have := toDigits_inj _ _ h1
      exact ⟨by congr 1; omega, String.ext h2⟩

/-- What the table built by `precalcDays` holds at the key of `(f, d)`: the gap,
raised to 1 when below, of the last row of the query for fund `f` and date `d`,
and what was there before when the query has no such row. -/
theorem lookup_precalcDaysLoop (gs : List dayGapRow) (out : GoMap String Int) (f : Int)
    (d : String) :
    (precalcDaysLoop gs out).lookup (daysKey f d)
      = match gs.reverse.find? (fun g => decide (g.FundID = f ∧ g.DateStr = d)) with
        | some g => some (if g.Days < 1 then 1 else g.Days)
        | none => out.lookup (daysKey f d) := by
  induction gs generalizing out with
  | nil => simp [precalcDaysLoop]
  | cons g gs ih =>
    simp only [precalcDaysLoop, ih, List.reverse_cons, List.find?_append]
    cases hfind : gs.reverse.find? (fun g => decide (g.FundID = f ∧ g.DateStr = d)) with
    | some g' => simp
    | none =>
      simp only [Option.none_or, List.find?_cons, List.find?_nil, List.lookup_cons]
      by_cases hg : g.FundID = f ∧ g.DateStr = d
      · have hk : (daysKey f d == daysKey g.FundID g.DateStr) = true := by
          rw [hg.1, hg.2]
          simp
        simp [hg, hk]
      · have hk : (daysKey f d == daysKey g.FundID g.DateStr) = false := by
          apply beq_false_of_ne
          intro hkey
          obtain ⟨h1, h2⟩ := daysKey_inj _ _ _ _ hkey
          exact hg ⟨h1.symm, h2.symm⟩
        simp [hg, hk]

end KeyLemmas

/-! ## The row-building loop -/

section KernelLemmas

variable {F : Type} [Zero F] [Add F] [Mul F] [Div F] [IntCast F]

theorem buildRows_eq_filterMap (nd : navDateRow) (fundMap : GoMap Int (fundInfo F))
    (investorAgentMap fundDateDaysMap : GoMap String Int) (navMap : GoMap Int F)
    (holdings : List (holdingRow F)) (rows : List (aumRow F)) :
    buildRows nd fundMap investorAgentMap fundDateDaysMap navMap holdings rows
      = rows ++ holdings.filterMap (fun h =>
          (navMap.lookup h.FundID).bind (fun navPerUnit =>
            (investorAgentMap.lookup h.InvestorID).map (fun agentID =>
              mkRow nd fundMap fundDateDaysMap h navPerUnit agentID))) := by
  induction holdings generalizing rows with
  | nil => simp [buildRows]
  | cons h hs ih =>
    unfold buildRows
    cases hn : navMap.lookup h.FundID with
    | none => simp [ih, List.filterMap_cons, hn]
    | some nav =>
      cases ha : investorAgentMap.lookup h.InvestorID with
      | none => simp [ih, List.filterMap_cons, hn, ha]
      | some a => simp [ih, List.filterMap_cons, hn, ha]

theorem sumTotals_eq_foldl (rows : List (aumRow F)) (acc : F × F) :
    sumTotals rows acc
      = ((rows.map (fun r => r.AUMValue)).foldl (fun s x => s + x) acc.1,
         (rows.map (fun r => r.ManagementFee)).foldl (fun s x => s + x) acc.2) := by
  induction rows generalizing acc with
  | nil => simp [sumTotals]
  | cons r rs ih =>
    obtain ⟨a, b⟩ := acc
    simp [sumTotals, ih]

end KernelLemmas

/-! ## insert.go -/

section StoreLemmas

variable {F : Type}

theorem newCalls_of_log (w w' : World F) (evs : List (Event F)) (h : w'.log = w.log ++ evs) :
    newCalls w w' = evs := by
  unfold newCalls
  rw [h]
  simp

theorem batchesOf_append (l₁ l₂ : List (Event F)) :
    batchesOf (l₁ ++ l₂) = batchesOf l₁ ++ batchesOf l₂ := by
  induction l₁ with
  | nil => simp [batchesOf]
  | cons e es ih => cases e <;> simp [batchesOf, ih]

theorem datesOf_append (l₁ l₂ : List (Event F)) :
    datesOf (l₁ ++ l₂) = datesOf l₁ ++ datesOf l₂ := by
  induction l₁ with
  | nil => simp [datesOf]
  | cons e es ih => cases e <;> simp [datesOf, ih]

theorem datesOf_batches (l : List (Event F)) (h : ∀ e ∈ l, e.isBatch = true) :
    datesOf l = [] := by
  induction l with
  | nil => rfl
  | cons e es ih =>
    have he := h e (by simp)
    cases e <;> simp [Event.isBatch] at he
    simp only [datesOf]
    exact ih (fun x hx => h x (by simp [hx]))

theorem execLoop_noFaults (c i k : Nat) : execLoop (noFaults c) i k = (i + k, none) := by
  induction k generalizing i with
  | zero => simp [execLoop]
  | succ k ih =>
    unfold execLoop
    simp only [noFaults]
    have := ih (i + 1)
    simp only [noFaults] at this
    rw [this]
    congr 1
    omega

theorem insertAUMBatch_log (flt : Faults) (w : World F) (rows : List (aumRow F)) :
    (insertAUMBatch flt w rows).1.log
      = w.log ++ [Event.insertAUMBatch rows (insertAUMBatch flt w rows).2.1
          (insertAUMBatch flt w rows).2.2] := by
  unfold insertAUMBatch
  split <;> simp

theorem insertAUMBatch_aum_daily (flt : Faults) (w : World F) (rows : List (aumRow F)) :
    (insertAUMBatch flt w rows).1.aum_daily = w.aum_daily := by
  unfold insertAUMBatch
  split <;> simp

theorem insertAUMBatch_noFaults (w : World F) (rows : List (aumRow F)) :
    (insertAUMBatch noFaults w rows).2 = (rows.length, none) ∧
    (insertAUMBatch noFaults w rows).1.aum_investor_daily
      = rows.foldl insertIgnore w.aum_investor_daily := by
  unfold insertAUMBatch
  split
  · rename_i h
    have : rows = [] := List.length_eq_zero.mp h
    subst this
    simp
  · simp [execLoop_noFaults]

theorem insertLoop_unfold (flt : Faults) (rows : List (aumRow F)) (w : World F)
    (i inserted : Nat) (h : i < rows.length) :
    insertLoop flt rows w i inserted
      = match (insertAUMBatch flt w ((rows.take (min (i + batchSize) rows.length)).drop i)).2.2 with
        | some err =>
          ((insertAUMBatch flt w ((rows.take (min (i + batchSize) rows.length)).drop i)).1,
            inserted, some err)
        | none =>
          insertLoop flt rows
            (insertAUMBatch flt w ((rows.take (min (i + batchSize) rows.length)).drop i)).1
            (i + batchSize)
            (inserted
              + (insertAUMBatch flt w
                  ((rows.take (min (i + batchSize) rows.length)).drop i)).2.1) := by
  have he : (if i + batchSize > rows.length then rows.length else i + batchSize)
      = min (i + batchSize) rows.length := by
    split <;> omega
  rw [insertLoop]
  simp only [h, if_true, he]

theorem insertLoop_step_err (flt : Faults) (rows : List (aumRow F)) (w : World F)
    (i inserted : Nat) (h : i < rows.length) (err : Err)
    (he : (insertAUMBatch flt w ((rows.take (min (i + batchSize) rows.length)).drop i)).2.2
      = some err) :
    insertLoop flt rows w i inserted
      = ((insertAUMBatch flt w ((rows.take (min (i + batchSize) rows.length)).drop i)).1,
          inserted, some err) := by
  rw [insertLoop_unfold flt rows w i inserted h, he]

theorem insertLoop_step_ok (flt : Faults) (rows : List (aumRow F)) (w : World F)
    (i inserted : Nat) (h : i < rows.length)
    (he : (insertAUMBatch flt w ((rows.take (min (i + batchSize) rows.length)).drop i)).2.2
      = none) :
    insertLoop flt rows w i inserted
      = insertLoop flt rows
          (insertAUMBatch flt w ((rows.take (min (i + batchSize) rows.length)).drop i)).1
          (i + batchSize)
          (inserted
            + (insertAUMBatch flt w
                ((rows.take (min (i + batchSize) rows.length)).drop i)).2.1) := by
  rw [insertLoop_unfold flt rows w i inserted h, he]

theorem insertLoop_done (flt : Faults) (rows : List (aumRow F)) (w : World F) (i inserted : Nat)
    (h : ¬ i < rows.length) :
    insertLoop flt rows w i inserted = (w, inserted, none) := by
  rw [insertLoop]
  simp [h]

theorem slice_eq {α : Type} (rows : List α) (i B : Nat) :
    (rows.take (min (i + B) rows.length)).drop i = (rows.drop i).take B := by
  apply List.ext_getElem?
  intro n
  simp only [List.getElem?_drop, List.getElem?_take]
  by_cases h : n < B
  · simp [h]
  · simp [h]

theorem slice_append {α : Type} (rows : List α) (i B : Nat) :
    (rows.take (min (i + B) rows.length)).drop i ++ rows.drop (i + B) = rows.drop i := by
  rw [slice_eq, ← List.drop_drop, List.take_append_drop]

theorem slice_length {α : Type} (rows : List α) (i B : Nat) :
    ((rows.take (min (i + B) rows.length)).drop i).length = min B (rows.length - i) := by
  simp [List.length_drop, List.length_take]
  omega

theorem mem_dropLast_cons {α : Type} (a x : α) (l : List α) (h : x ∈ (a :: l).dropLast) :
    x = a ∨ x ∈ l.dropLast := by
  cases l with
  | nil => simp at h
  | cons b l => simpa using h

/-- The calls made by the chunking loop, whatever fails: the log grows by
`insertAUMBatch` calls only, on consecutive slices of `rows` from index `i`,
each one non-empty and of at most `batchSize` rows, all but the last of exactly
`batchSize` rows and successful, and the error returned is the one of the last
call. -/
theorem insertLoop_spec (flt : Faults) (rows : List (aumRow F)) :
    ∀ (k i : Nat) (w : World F) (inserted : Nat), rows.length - i ≤ k →
      ∃ evs : List (Event F),
        (insertLoop flt rows w i inserted).1.log = w.log ++ evs ∧
        (insertLoop flt rows w i inserted).1.aum_daily = w.aum_daily ∧
        (∀ e ∈ evs, e.isBatch = true) ∧
        (batchesOf evs).flatten <+: rows.drop i ∧
        ((insertLoop flt rows w i inserted).2.2 = none →
          (batchesOf evs).flatten = rows.drop i) ∧
        (∀ b ∈ batchesOf evs, 0 < b.length ∧ b.length ≤ batchSize) ∧
        (∀ b ∈ (batchesOf evs).dropLast, b.length = batchSize) ∧
        (∀ e ∈ evs.dropLast, e.err = none) ∧
        (insertLoop flt rows w i inserted).2.2 = evs.getLast?.bind Event.err := by
  intro k
  induction k with
  | zero =>
    intro i w inserted hk
    have hi : ¬ i < rows.length := by omega
    refine ⟨[], ?_⟩
    rw [insertLoop_done flt rows w i inserted hi]
    have hd : rows.drop i = [] := List.drop_eq_nil_of_le (by omega)
    simp [batchesOf, hd]
  | succ k ih =>
    intro i w inserted hk
    by_cases hi : i < rows.length
    · have hlen := slice_length rows i batchSize
      have happ := slice_append rows i batchSize
      have hstep_err := insertLoop_step_err flt rows w i inserted hi
      have hstep_ok := insertLoop_step_ok flt rows w i inserted hi
      generalize (rows.take (min (i + batchSize) rows.length)).drop i = b at *
      have hB : 0 < batchSize := by decide
      have hlog := insertAUMBatch_log flt w b
      have hdaily := insertAUMBatch_aum_daily flt w b
      cases herr : (insertAUMBatch flt w b).2.2 with
      | some err =>
        rw [hstep_err err herr]
        refine ⟨[Event.insertAUMBatch b (insertAUMBatch flt w b).2.1 (some err)], ?_⟩
        simp only [herr] at hlog
        simp only [hlog, hdaily, batchesOf, List.flatten, List.append_nil, true_and]
        refine ⟨?_, ?_, ?_, ?_, ?_, ?_, ?_⟩
        · intro e he
          simp at he
          subst he
          rfl
        · exact ⟨rows.drop (i + batchSize), happ⟩
        · intro h; simp at h
        · intro c hc
          simp at hc
          subst hc
          omega
        · simp
        · simp
        · simp [Event.err]
      | none =>
        obtain ⟨evs, h1, h2, h3, h4, h5, h6, h7, h8, h9⟩ :=
          ih (i + batchSize) (insertAUMBatch flt w b).1
            (inserted + (insertAUMBatch flt w b).2.1) (by omega)
        simp only [herr] at hlog
        rw [hstep_ok herr]
        refine ⟨Event.insertAUMBatch b (insertAUMBatch flt w b).2.1 none :: evs, ?_⟩
        refine ⟨?_, ?_, ?_, ?_, ?_, ?_, ?_, ?_, ?_⟩
        · rw [h1, hlog]; simp
        · rw [h2, hdaily]
        · intro e he
          rcases List.mem_cons.mp he with he | he
          · subst he; rfl
          · exact h3 e he
        · obtain ⟨t, ht⟩ := h4
          refine ⟨t, ?_⟩
          simp only [batchesOf, List.flatten, List.append_assoc]
          rw [ht, happ]
        · intro hnone
          simp only [batchesOf, List.flatten]
          rw [h5 hnone, happ]
        · intro c hc
          simp only [batchesOf] at hc
          rcases List.mem_cons.mp hc with hc | hc
          · subst hc; omega
          · exact h6 c hc
        · intro c hc
          simp only [batchesOf] at hc
          rcases mem_dropLast_cons _ _ _ hc with hc | hc
          · subst hc
            cases hbs : batchesOf evs with
            | nil => simp [batchesOf, hbs] at *
            | cons d ds =>
              have hd := (h6 d (by simp [hbs])).1
              have hpre := h4
              rw [hbs] at hpre
              have hle := hpre.length_le
              simp only [List.flatten, List.length_append, List.length_drop] at hle
              omega
          · exact h7 c hc
        · intro e he
          rcases mem_dropLast_cons _ _ _ he with he | he
          · subst he; rfl
          · exact h8 e he
        · rw [h9]
          cases evs with
          | nil => simp [Event.err]
          | cons e es => simp [List.getLast?_cons_cons]
    · refine ⟨[], ?_⟩
      rw [insertLoop_done flt rows w i inserted hi]
      have hd : rows.drop i = [] := List.drop_eq_nil_of_le (by omega)
      simp [batchesOf, hd]

/-- The chunking loop when nothing fails: it returns `inserted` plus the number of
rows from index `i`, and the table has received those rows one by one. -/
theorem insertLoop_noFaults (rows : List (aumRow F)) :
    ∀ (k i : Nat) (w : World F) (inserted : Nat), rows.length - i ≤ k →
      (insertLoop noFaults rows w i inserted).2 = (inserted + (rows.length - i), none) ∧
      (insertLoop noFaults rows w i inserted).1.aum_investor_daily
        = (rows.drop i).foldl insertIgnore w.aum_investor_daily := by
  intro k
  induction k with
  | zero =>
    intro i w inserted hk
    have hi : ¬ i < rows.length := by omega
    rw [insertLoop_done noFaults rows w i inserted hi]
    have hd : rows.drop i = [] := List.drop_eq_nil_of_le (by omega)
    have h0 : rows.length - i = 0 := by omega
    simp [hd, h0]
  | succ k ih =>
    intro i w inserted hk
    by_cases hi : i < rows.length
    · have hlen := slice_length rows i batchSize
      have happ := slice_append rows i batchSize
      have hstep_ok := insertLoop_step_ok noFaults rows w i inserted hi
      have hB : 0 < batchSize := by decide
      generalize (rows.take (min (i + batchSize) rows.length)).drop i = b at *
      obtain ⟨hb1, hb2⟩ := insertAUMBatch_noFaults w b
      have herr : (insertAUMBatch noFaults w b).2.2 = none := by rw [hb1]
      have hcnt : (insertAUMBatch noFaults w b).2.1 = b.length := by rw [hb1]
      rw [hstep_ok herr]
      obtain ⟨h1, h2⟩ := ih (i + batchSize) (insertAUMBatch noFaults w b).1
        (inserted + (insertAUMBatch noFaults w b).2.1) (by omega)
      refine ⟨?_, ?_⟩
      · rw [h1, hcnt, hlen]
        have hsum : inserted + min batchSize (rows.length - i) + (rows.length - (i + batchSize))
            = inserted + (rows.length - i) := by omega
        rw [hsum]
      · rw [h2, hb2, ← happ, List.foldl_append]
    · rw [insertLoop_done noFaults rows w i inserted hi]
      have hd : rows.drop i = [] := List.drop_eq_nil_of_le (by omega)
      have h0 : rows.length - i = 0 := by omega
      simp [hd, h0]

theorem chunk_count {α : Type} (bs : List (List α))
    (h1 : ∀ b ∈ bs, 0 < b.length ∧ b.length ≤ 10000)
    (h2 : ∀ b ∈ bs.dropLast, b.length = 10000) :
    bs.length = (bs.flatten.length + 9999) / 10000 := by
  induction bs with
  | nil => simp
  | cons b bs ih =>
    cases bs with
    | nil =>
      have := h1 b (by simp)
      simp only [List.length_singleton, List.flatten_cons, List.flatten_nil, List.append_nil]
      omega
    | cons c cs =>
      have hb : b.length = 10000 := h2 b (by simp)
      have ih' := ih (fun x hx => h1 x (by simp [hx])) (fun x hx => h2 x (by
        simp only [List.dropLast_cons₂, List.mem_cons]
        exact Or.inr hx))
      simp only [List.length_cons, List.flatten_cons, List.length_append] at ih' ⊢
      omega

/-- C8. When no insert fails, the chunking loop of `processDate`, run on `rows`,
calls `insertAUMBatch` and nothing else, on slices such that: the slices
concatenated in call order are `rows`; every slice is non-empty and has at most
10,000 rows; every slice but the last has exactly 10,000 rows; there are
`⌈n / 10,000⌉` slices for `n` rows; and for `n = 0` there is no call.  The loop
is a total function: it terminates on every input. -/
theorem insertLoop_chunks (flt : Faults) (rows : List (aumRow F)) (w : World F)
    (hok : (insertLoop flt rows w 0 0).2.2 = none) :
    (∀ e ∈ newCalls w (insertLoop flt rows w 0 0).1, e.isBatch = true) ∧
    (batchesOf (newCalls w (insertLoop flt rows w 0 0).1)).flatten = rows ∧
    (∀ b ∈ batchesOf (newCalls w (insertLoop flt rows w 0 0).1),
      0 < b.length ∧ b.length ≤ 10000) ∧
    (∀ b ∈ (batchesOf (newCalls w (insertLoop flt rows w 0 0).1)).dropLast,
      b.length = 10000) ∧
    (batchesOf (newCalls w (insertLoop flt rows w 0 0).1)).length
      = (rows.length + 9999) / 10000 ∧
    (rows.length = 0 → newCalls w (insertLoop flt rows w 0 0).1 = []) := by
  obtain ⟨evs, h1, _, h3, _, h5, h6, h7, _, _⟩ :=
    insertLoop_spec flt rows rows.length 0 w 0 (by omega)
  rw [newCalls_of_log w _ evs h1]
  have hfl := h5 hok
  simp only [List.drop_zero] at hfl
  have h6' : ∀ b ∈ batchesOf evs, 0 < b.length ∧ b.length ≤ 10000 := h6
  have h7' : ∀ b ∈ (batchesOf evs).dropLast, b.length = 10000 := h7
  refine ⟨h3, hfl, h6', h7', ?_, ?_⟩
  · have := chunk_count (batchesOf evs) h6' h7'
    rw [hfl] at this
    exact this
  · intro h0
    have hnil : rows = [] := List.length_eq_zero.mp h0
    cases evs with
    | nil => rfl
    | cons e es =>
      have he := h3 e (by simp)
      cases e with
      | insertAUMBatch b n err =>
        have hpos := (h6 b (by simp [batchesOf])).1
        rw [hnil] at hfl
        simp [batchesOf] at hfl
        rw [hfl.1] at hpos
        simp at hpos
      | processDate nd => simp [Event.isBatch] at he
      | insertAumDaily d a f err => simp [Event.isBatch] at he
      | Verify => simp [Event.isBatch] at he

/-! ### The two statements on the tables -/

theorem upsertAumDaily_dates (t : List (aumDailyRow F)) (d : String) (a f : F) (now : Nat) :
    (upsertAumDaily t d a f now).map (fun r => r.date)
      = if d ∈ t.map (fun r => r.date) then t.map (fun r => r.date)
        else t.map (fun r => r.date) ++ [d] := by
  unfold upsertAumDaily
  by_cases h : d ∈ t.map (fun r => r.date)
  · have hany : t.any (fun x => x.date == d) = true := by
      obtain ⟨r, hr, hrd⟩ := List.mem_map.mp h
      exact List.any_eq_true.mpr ⟨r, hr, by simp [hrd]⟩
    simp only [hany, if_true, h, List.map_map]
    apply List.map_congr_left
    intro x _
    simp only [Function.comp]
    split <;> rfl
  · have hany : ¬ t.any (fun x => x.date == d) = true := by
      intro hc
      obtain ⟨r, hr, hrd⟩ := List.any_eq_true.mp hc
      exact h (List.mem_map.mpr ⟨r, hr, by simpa using hrd⟩)
    simp [hany, h]

theorem upsertAumDaily_mem_date (t : List (aumDailyRow F)) (d : String) (a f : F) (now : Nat) :
    d ∈ (upsertAumDaily t d a f now).map (fun r => r.date) := by
  rw [upsertAumDaily_dates]
  split
  · assumption
  · simp

theorem upsertAumDaily_dates_mono (t : List (aumDailyRow F)) (d : String) (a f : F) (now : Nat)
    (x : String) (hx : x ∈ t.map (fun r => r.date)) :
    x ∈ (upsertAumDaily t d a f now).map (fun r => r.date) := by
  rw [upsertAumDaily_dates]
  split
  · exact hx
  · exact List.mem_append_left _ hx

theorem upsertAumDaily_values (t : List (aumDailyRow F)) (d : String) (a f : F) (now : Nat)
    (r : aumDailyRow F) (hr : r ∈ upsertAumDaily t d a f now) (hd : r.date = d) :
    r.aum_value = a ∧ r.management_fee = f := by
  unfold upsertAumDaily at hr
  split at hr
  · obtain ⟨x, _, hx⟩ := List.mem_map.mp hr
    by_cases hxd : (x.date == d) = true
    · simp only [hxd, if_true] at hx
      subst hx
      exact ⟨rfl, rfl⟩
    · simp only [hxd, if_false] at hx
      subst hx
      exact absurd (by simpa using hd) hxd
  · rename_i hany
    rcases List.mem_append.mp hr with hr | hr
    · exact absurd (List.any_eq_true.mpr ⟨r, hr, by simp [hd]⟩) hany
    · simp at hr
      subst hr
      exact ⟨rfl, rfl⟩

/-- Upserting the same totals again changes nothing but `updated_at`. -/
theorem upsertAumDaily_again (t : List (aumDailyRow F)) (d : String) (a f : F) (n₁ n₂ : Nat) :
    (upsertAumDaily (upsertAumDaily t d a f n₁) d a f n₂).map
        (fun r => (r.date, r.aum_value, r.management_fee, r.created_at))
      = (upsertAumDaily t d a f n₁).map
          (fun r => (r.date, r.aum_value, r.management_fee, r.created_at)) := by
  have hmem := upsertAumDaily_mem_date t d a f n₁
  have hvals := upsertAumDaily_values t d a f n₁
  generalize upsertAumDaily t d a f n₁ = t₁ at *
  have hany : t₁.any (fun x => x.date == d) = true := by
    obtain ⟨r, hr, hrd⟩ := List.mem_map.mp hmem
    exact List.any_eq_true.mpr ⟨r, hr, by simp [hrd]⟩
  unfold upsertAumDaily
  simp only [hany, if_true, List.map_map]
  apply List.map_congr_left
  intro x hx
  simp only [Function.comp]
  by_cases hxd : (x.date == d) = true
  · have := hvals x hx (by simpa using hxd)
    simp only [hxd, if_true, this.1, this.2]
  · simp [hxd]

theorem insertIgnore_present (t : List (aumRow F)) (r : aumRow F)
    (h : t.any (fun x => sameKey x r) = true) : insertIgnore t r = t := by
  unfold insertIgnore
  simp [h]

theorem insertIgnore_any_mono (t : List (aumRow F)) (r x : aumRow F)
    (h : t.any (fun y => sameKey y x) = true) :
    (insertIgnore t r).any (fun y => sameKey y x) = true := by
  unfold insertIgnore
  split
  · exact h
  · simp only [List.any_append, h, Bool.true_or]

theorem foldl_insertIgnore_any_mono (rows : List (aumRow F)) (t : List (aumRow F)) (x : aumRow F)
    (h : t.any (fun y => sameKey y x) = true) :
    (rows.foldl insertIgnore t).any (fun y => sameKey y x) = true := by
  induction rows generalizing t with
  | nil => exact h
  | cons r rs ih => exact ih _ (insertIgnore_any_mono t r x h)

theorem sameKey_self (r : aumRow F) : sameKey r r = true := by
  simp [sameKey]

theorem insertIgnore_any_self (t : List (aumRow F)) (r : aumRow F) :
    (insertIgnore t r).any (fun y => sameKey y r) = true := by
  unfold insertIgnore
  split
  · assumption
  · simp [sameKey_self]

/-- Once every row of `rows` has its key in the table, inserting `rows` is a no-op. -/
theorem foldl_insertIgnore_present (rows : List (aumRow F)) (t : List (aumRow F))
    (h : ∀ r ∈ rows, t.any (fun y => sameKey y r) = true) :
    rows.foldl insertIgnore t = t := by
  induction rows with
  | nil => rfl
  | cons r rs ih =>
    simp only [List.foldl_cons]
    rw [insertIgnore_present t r (h r (by simp))]
    exact ih (fun x hx => h x (by simp [hx]))

theorem foldl_insertIgnore_covers (rows : List (aumRow F)) (t : List (aumRow F)) :
    ∀ r ∈ rows, (rows.foldl insertIgnore t).any (fun y => sameKey y r) = true := by
  induction rows generalizing t with
  | nil => intro r hr; simp at hr
  | cons r rs ih =>
    intro x hx
    simp only [List.foldl_cons]
    rcases List.mem_cons.mp hx with hx | hx
    · subst hx
      exact foldl_insertIgnore_any_mono rs _ x (insertIgnore_any_self t x)
    · exact ih _ x hx

/-- Insert-ignore of the same rows a second time leaves the table as it is. -/
theorem foldl_insertIgnore_again (rows : List (aumRow F)) (t : List (aumRow F)) :
    rows.foldl insertIgnore (rows.foldl insertIgnore t) = rows.foldl insertIgnore t :=
  foldl_insertIgnore_present rows _ (foldl_insertIgnore_covers rows t)

end StoreLemmas

/-! ## `processDate`, path by path -/

section PipelineLemmas

variable {F : Type} [Zero F] [Add F] [Mul F] [Div F] [IntCast F]

theorem processDate_noNavs (rs : ReadSide F) (flt : Faults) (w : World F) (nd : navDateRow)
    (fundMap : GoMap Int (fundInfo F)) (investorAgentMap fundDateDaysMap : GoMap String Int)
    (hn : rs.loadNAVsForDate nd.DateStr = Except.ok []) :
    processDate rs flt w nd fundMap investorAgentMap fundDateDaysMap
      = ({ w with log := w.log ++ [Event.processDate nd] }, 0, none) := by
  unfold processDate
  simp only [hn, List.length_nil, if_true]

theorem processDate_noHoldings (rs : ReadSide F) (flt : Faults) (w : World F)
    (nd : navDateRow) (fundMap : GoMap Int (fundInfo F))
    (investorAgentMap fundDateDaysMap : GoMap String Int) (navMap : GoMap Int F)
    (hn : rs.loadNAVsForDate nd.DateStr = Except.ok navMap) (hne : navMap ≠ [])
    (hh : rs.loadHoldingsForDate nd.DateStr = Except.ok []) :
    processDate rs flt w nd fundMap investorAgentMap fundDateDaysMap
      = ({ w with log := w.log ++ [Event.processDate nd] }, 0, none) := by
  have h0 : ¬ navMap.length = 0 := fun h => hne (List.length_eq_zero.mp h)
  unfold processDate
  simp only [hn, hh, h0, if_false, List.length_nil, if_true]

theorem processDate_insertError (rs : ReadSide F) (flt : Faults) (w : World F)
    (nd : navDateRow) (fundMap : GoMap Int (fundInfo F))
    (investorAgentMap fundDateDaysMap : GoMap String Int) (navMap : GoMap Int F)
    (holdings : List (holdingRow F)) (e : Err)
    (hn : rs.loadNAVsForDate nd.DateStr = Except.ok navMap) (hne : navMap ≠ [])
    (hh : rs.loadHoldingsForDate nd.DateStr = Except.ok holdings) (hhe : holdings ≠ [])
    (hi : (insertLoop flt
        (buildRows nd fundMap investorAgentMap fundDateDaysMap navMap holdings [])
        { w with log := w.log ++ [Event.processDate nd] } 0 0).2.2 = some e) :
    processDate rs flt w nd fundMap investorAgentMap fundDateDaysMap
      = ((insertLoop flt
            (buildRows nd fundMap investorAgentMap fundDateDaysMap navMap holdings [])
            { w with log := w.log ++ [Event.processDate nd] } 0 0).1,
         (insertLoop flt
            (buildRows nd fundMap investorAgentMap fundDateDaysMap navMap holdings [])
            { w with log := w.log ++ [Event.processDate nd] } 0 0).2.1,
         some e) := by
  have h0 : ¬ navMap.length = 0 := fun h => hne (List.length_eq_zero.mp h)
  have h1 : ¬ holdings.length = 0 := fun h => hhe (List.length_eq_zero.mp h)
  unfold processDate
  simp only [hn, hh, h0, h1, if_false, hi]

theorem processDate_upsert (rs : ReadSide F) (flt : Faults) (w : World F)
    (nd : navDateRow) (fundMap : GoMap Int (fundInfo F))
    (investorAgentMap fundDateDaysMap : GoMap String Int) (navMap : GoMap Int F)
    (holdings : List (holdingRow F))
    (hn : rs.loadNAVsForDate nd.DateStr = Except.ok navMap) (hne : navMap ≠ [])
    (hh : rs.loadHoldingsForDate nd.DateStr = Except.ok holdings) (hhe : holdings ≠ [])
    (hi : (insertLoop flt
        (buildRows nd fundMap investorAgentMap fundDateDaysMap navMap holdings [])
        { w with log := w.log ++ [Event.processDate nd] } 0 0).2.2 = none) :
    processDate rs flt w nd fundMap investorAgentMap fundDateDaysMap
      = ((insertAumDaily flt
            (insertLoop flt
              (buildRows nd fundMap investorAgentMap fundDateDaysMap navMap holdings [])
              { w with log := w.log ++ [Event.processDate nd] } 0 0).1
            nd.DateStr
            (sumTotals (buildRows nd fundMap investorAgentMap fundDateDaysMap navMap holdings [])
              (0, 0)).1
            (sumTotals (buildRows nd fundMap investorAgentMap fundDateDaysMap navMap holdings [])
              (0, 0)).2).1,
         (insertLoop flt
            (buildRows nd fundMap investorAgentMap fundDateDaysMap navMap holdings [])
            { w with log := w.log ++ [Event.processDate nd] } 0 0).2.1,
         (insertAumDaily flt
            (insertLoop flt
              (buildRows nd fundMap investorAgentMap fundDateDaysMap navMap holdings [])
              { w with log := w.log ++ [Event.processDate nd] } 0 0).1
            nd.DateStr
            (sumTotals (buildRows nd fundMap investorAgentMap fundDateDaysMap navMap holdings [])
              (0, 0)).1
            (sumTotals (buildRows nd fundMap investorAgentMap fundDateDaysMap navMap holdings [])
              (0, 0)).2).2) := by
  have h0 : ¬ navMap.length = 0 := fun h => hne (List.length_eq_zero.mp h)
  have h1 : ¬ holdings.length = 0 := fun h => hhe (List.length_eq_zero.mp h)
  unfold processDate
  simp only [hn, hh, h0, h1, if_false, hi]
  split <;> simp_all

theorem insertAumDaily_log (flt : Faults) (w : World F) (d : String) (a f : F) :
    (insertAumDaily flt w d a f).1.log
      = w.log ++ [Event.insertAumDaily d a f (insertAumDaily flt w d a f).2] := by
  unfold insertAumDaily
  split <;> simp

theorem insertAumDaily_aum_investor_daily (flt : Faults) (w : World F) (d : String) (a f : F) :
    (insertAumDaily flt w d a f).1.aum_investor_daily = w.aum_investor_daily := by
  unfold insertAumDaily
  split <;> simp

theorem insertAumDaily_aum_daily (flt : Faults) (w : World F) (d : String) (a f : F) :
    ((insertAumDaily flt w d a f).2 = none →
      (insertAumDaily flt w d a f).1.aum_daily = upsertAumDaily w.aum_daily d a f w.clock) ∧
    ((insertAumDaily flt w d a f).2 ≠ none →
      (insertAumDaily flt w d a f).1.aum_daily = w.aum_daily) := by
  unfold insertAumDaily
  split <;> simp

theorem insertAumDaily_ok (flt : Faults) (w : World F) (d : String) (a f : F)
    (h : flt w.clock 0 = none) : (insertAumDaily flt w d a f).2 = none := by
  unfold insertAumDaily
  simp [h]

theorem processDate_quiet (rs : ReadSide F) (flt : Faults) (w : World F) (nd : navDateRow)
    (fundMap : GoMap Int (fundInfo F)) (investorAgentMap fundDateDaysMap : GoMap String Int)
    (q : Option Err) (h : quietResult rs nd = some q) :
    processDate rs flt w nd fundMap investorAgentMap fundDateDaysMap
      = ({ w with log := w.log ++ [Event.processDate nd] }, 0, q) := by
  unfold quietResult at h
  unfold processDate
  cases hn : rs.loadNAVsForDate nd.DateStr with
  | error e => simp_all
  | ok navMap =>
    simp only [hn] at h
    by_cases h0 : navMap.length = 0
    · simp_all
    · simp only [h0, if_false] at h ⊢
      cases hh : rs.loadHoldingsForDate nd.DateStr with
      | error e => simp_all
      | ok holdings =>
        simp only [hh] at h
        by_cases h1 : holdings.length = 0
        · simp_all
        · simp [h1] at h

theorem quietResult_none (rs : ReadSide F) (nd : navDateRow) (h : quietResult rs nd = none) :
    ∃ navMap holdings, rs.loadNAVsForDate nd.DateStr = Except.ok navMap ∧ navMap ≠ [] ∧
      rs.loadHoldingsForDate nd.DateStr = Except.ok holdings ∧ holdings ≠ [] := by
  unfold quietResult at h
  cases hn : rs.loadNAVsForDate nd.DateStr with
  | error e => simp [hn] at h
  | ok navMap =>
    simp only [hn] at h
    by_cases h0 : navMap.length = 0
    · simp [h0] at h
    · simp only [h0, if_false] at h
      cases hh : rs.loadHoldingsForDate nd.DateStr with
      | error e => simp [hh] at h
      | ok holdings =>
        simp only [hh] at h
        by_cases h1 : holdings.length = 0
        · simp [h1] at h
        · exact ⟨navMap, holdings, rfl, fun h => h0 (by simp [h]), rfl,
            fun h => h1 (by simp [h])⟩

theorem all_err_none (l : List (Event F)) (h1 : ∀ e ∈ l.dropLast, e.err = none)
    (h2 : l.getLast?.bind Event.err = none) : ∀ e ∈ l, e.err = none := by
  intro e he
  cases hl : l.getLast? with
  | none =>
    have : l = [] := List.getLast?_eq_none_iff.mp hl
    subst this
    simp at he
  | some a =>
    have hsplit := List.dropLast_append_getLast? a hl
    rw [hl] at h2
    rw [← hsplit] at he
    rcases List.mem_append.mp he with he | he
    · exact h1 e he
    · simp at he
      subst he
      simpa using h2

/-- The calls of `processDate` once both loads gave something: chunk inserts on
consecutive slices of the rows, then, only if all of them succeeded, one upsert
of the totals of the rows. -/
theorem processDate_loud_trace (rs : ReadSide F) (flt : Faults) (w : World F)
    (nd : navDateRow) (fundMap : GoMap Int (fundInfo F))
    (investorAgentMap fundDateDaysMap : GoMap String Int) (navMap : GoMap Int F)
    (holdings : List (holdingRow F))
    (hn : rs.loadNAVsForDate nd.DateStr = Except.ok navMap) (hne : navMap ≠ [])
    (hh : rs.loadHoldingsForDate nd.DateStr = Except.ok holdings) (hhe : holdings ≠ []) :
    ∃ bevs uevs : List (Event F),
      (processDate rs flt w nd fundMap investorAgentMap fundDateDaysMap).1.log
        = w.log ++ Event.processDate nd :: (bevs ++ uevs) ∧
      (∀ e ∈ bevs, e.isBatch = true) ∧
      (batchesOf bevs).flatten
        <+: buildRows nd fundMap investorAgentMap fundDateDaysMap navMap holdings [] ∧
      (∀ b ∈ batchesOf bevs, 0 < b.length ∧ b.length ≤ batchSize) ∧
      (∀ b ∈ (batchesOf bevs).dropLast, b.length = batchSize) ∧
      (∀ e ∈ bevs.dropLast, e.err = none) ∧
      ((uevs = [] ∧
        (processDate rs flt w nd fundMap investorAgentMap fundDateDaysMap).2.2
          = bevs.getLast?.bind Event.err ∧
        (processDate rs flt w nd fundMap investorAgentMap fundDateDaysMap).2.2 ≠ none ∧
        (processDate rs flt w nd fundMap investorAgentMap fundDateDaysMap).1.aum_daily
          = w.aum_daily) ∨
       (uevs = [Event.insertAumDaily nd.DateStr
            (sumTotals (buildRows nd fundMap investorAgentMap fundDateDaysMap navMap holdings [])
              (0, 0)).1
            (sumTotals (buildRows nd fundMap investorAgentMap fundDateDaysMap navMap holdings [])
              (0, 0)).2
            (processDate rs flt w nd fundMap investorAgentMap fundDateDaysMap).2.2] ∧
        (∀ e ∈ bevs, e.err = none) ∧
        (batchesOf bevs).flatten
          = buildRows nd fundMap investorAgentMap fundDateDaysMap navMap holdings [] ∧
        ((processDate rs flt w nd fundMap investorAgentMap fundDateDaysMap).2.2 ≠ none →
          (processDate rs flt w nd fundMap investorAgentMap fundDateDaysMap).1.aum_daily
            = w.aum_daily) ∧
        ((processDate rs flt w nd fundMap investorAgentMap fundDateDaysMap).2.2 = none →
          ∃ now, (processDate rs flt w nd fundMap investorAgentMap fundDateDaysMap).1.aum_daily
            = upsertAumDaily w.aum_daily nd.DateStr
                (sumTotals
                  (buildRows nd fundMap investorAgentMap fundDateDaysMap navMap holdings [])
                  (0, 0)).1
                (sumTotals
                  (buildRows nd fundMap investorAgentMap fundDateDaysMap navMap holdings [])
                  (0, 0)).2 now))) := by
  have hpe := processDate_insertError rs flt w nd fundMap investorAgentMap fundDateDaysMap
    navMap holdings
  have hpu := processDate_upsert rs flt w nd fundMap investorAgentMap fundDateDaysMap
    navMap holdings hn hne hh hhe
  generalize buildRows nd fundMap investorAgentMap fundDateDaysMap navMap holdings [] = rows at *
  obtain ⟨evs, h1, h2, h3, h4, h5, h6, h7, h8, h9⟩ :=
    insertLoop_spec flt rows rows.length 0
      { w with log := w.log ++ [Event.processDate nd] } 0 (by omega)
  simp only [List.drop_zero] at h4 h5
  cases herr : (insertLoop flt rows { w with log := w.log ++ [Event.processDate nd] } 0 0).2.2 with
  | some e =>
    rw [hpe e hn hne hh hhe herr]
    refine ⟨evs, [], ?_, h3, h4, h6, h7, h8, Or.inl ⟨rfl, ?_, ?_, ?_⟩⟩
    · simp only [h1]; simp
    · simp only [← h9, herr]
    · simp
    · simp only [h2]
  | none =>
    rw [hpu herr]
    generalize (insertLoop flt rows { w with log := w.log ++ [Event.processDate nd] } 0 0).1
      = w1 at *
    have hul := insertAumDaily_log flt w1 nd.DateStr (sumTotals rows (0, 0)).1
      (sumTotals rows (0, 0)).2
    have hud := insertAumDaily_aum_daily flt w1 nd.DateStr (sumTotals rows (0, 0)).1
      (sumTotals rows (0, 0)).2
    refine ⟨evs, _, ?_, h3, h4, h6, h7, h8, Or.inr ⟨rfl, ?_, h5 herr, ?_, ?_⟩⟩
    · simp only [hul, h1]; simp
    · exact all_err_none evs h8 (by rw [← h9, herr])
    · intro hne2
      simp only [] at hne2 ⊢
      rw [hud.2 hne2, h2]
    · intro hnone
      simp only [] at hnone ⊢
      exact ⟨w1.clock, by rw [hud.1 hnone, h2]⟩

theorem mem_buildRows (nd : navDateRow) (fundMap : GoMap Int (fundInfo F))
    (investorAgentMap fundDateDaysMap : GoMap String Int) (navMap : GoMap Int F)
    (holdings : List (holdingRow F)) (r : aumRow F)
    (hr : r ∈ buildRows nd fundMap investorAgentMap fundDateDaysMap navMap holdings []) :
    ∃ h navPerUnit agentID, h ∈ holdings ∧ navMap.lookup h.FundID = some navPerUnit ∧
      investorAgentMap.lookup h.InvestorID = some agentID ∧
      r = mkRow nd fundMap fundDateDaysMap h navPerUnit agentID := by
  rw [buildRows_eq_filterMap] at hr
  simp only [List.nil_append, List.mem_filterMap] at hr
  obtain ⟨h, hh, hr⟩ := hr
  cases hn : navMap.lookup h.FundID with
  | none => simp [hn] at hr
  | some nav =>
    cases ha : investorAgentMap.lookup h.InvestorID with
    | none => simp [hn, ha] at hr
    | some a =>
      simp [hn, ha] at hr
      exact ⟨h, nav, a, hh, hn, ha, hr.symm⟩

/-- The rows sent to the store by a call of `processDate` are rows of the row loop,
run on what the two loads returned. -/
theorem processDate_emitted_sub (rs : ReadSide F) (flt : Faults) (w : World F)
    (nd : navDateRow) (fundMap : GoMap Int (fundInfo F))
    (investorAgentMap fundDateDaysMap : GoMap String Int) (r : aumRow F)
    (hr : r ∈ (batchesOf (newCalls w
      (processDate rs flt w nd fundMap investorAgentMap fundDateDaysMap).1)).flatten) :
    ∃ navMap holdings, rs.loadNAVsForDate nd.DateStr = Except.ok navMap ∧
      rs.loadHoldingsForDate nd.DateStr = Except.ok holdings ∧
      r ∈ buildRows nd fundMap investorAgentMap fundDateDaysMap navMap holdings [] := by
  cases hq : quietResult rs nd with
  | some q =>
    rw [processDate_quiet rs flt w nd fundMap investorAgentMap fundDateDaysMap q hq] at hr
    rw [newCalls_of_log w _ [Event.processDate nd] rfl] at hr
    simp [batchesOf] at hr
  | none =>
    obtain ⟨navMap, holdings, hn, hne, hh, hhe⟩ := quietResult_none rs nd hq
    obtain ⟨bevs, uevs, hlog, _, hpre, _, _, _, hu⟩ :=
      processDate_loud_trace rs flt w nd fundMap investorAgentMap fundDateDaysMap navMap holdings
        hn hne hh hhe
    rw [newCalls_of_log w _ _ hlog] at hr
    have hb : batchesOf (Event.processDate nd :: (bevs ++ uevs)) = batchesOf bevs := by
      rcases hu with ⟨hu, _⟩ | ⟨hu, _⟩ <;> simp [batchesOf, batchesOf_append, hu]
    rw [hb] at hr
    exact ⟨navMap, holdings, hn, hh, hpre.subset hr⟩

/-- C1. Every row that `processDate` sends to the store comes from a holding `h`
returned by the holdings load whose fund has a NAV `navPerUnit` in the NAV map
of the date, and carries: `AUMValue = Units * NavPerUnit` with the holding's
units and that NAV; `Days` equal to the entry of the day-gap table at the key
`"<fund>-<date>"` when that entry exists and is at least 1, and 1 otherwise, so
that, the table being the one `precalcDays` builds from the rows of its query,
`Days` is the gap of the query row of this fund and this date (the last such row)
when there is one and it is at least 1, and 1 otherwise; `Days ≥ 1`; and, when
the fund is in the funds map,
`ManagementFee = ((AUMValue * (rate / 100)) / basis) * Days`, where `rate` is the
fund's `ManagementFeeRate` and `basis` its `ValuationBasis` with 0 replaced by 365. -/
theorem processDate_row_values (rs : ReadSide F) (flt : Faults) (w : World F)
    (nd : navDateRow) (fundMap : GoMap Int (fundInfo F))
    (investorAgentMap fundDateDaysMap : GoMap String Int) (r : aumRow F)
    (hr : r ∈ (batchesOf (newCalls w
      (processDate rs flt w nd fundMap investorAgentMap fundDateDaysMap).1)).flatten) :
    ∃ navMap holdings h navPerUnit,
      rs.loadNAVsForDate nd.DateStr = Except.ok navMap ∧
      rs.loadHoldingsForDate nd.DateStr = Except.ok holdings ∧
      h ∈ holdings ∧ navMap.lookup h.FundID = some navPerUnit ∧
      r.InvestorID = h.InvestorID ∧ r.FundID = h.FundID ∧ r.DateStr = nd.DateStr ∧
      r.Units = h.UnitsAfter ∧ r.NavPerUnit = navPerUnit ∧
      r.AUMValue = r.Units * r.NavPerUnit ∧
      r.Days = (match fundDateDaysMap.lookup (toString r.FundID ++ "-" ++ nd.DateStr) with
                | some d => if 1 ≤ d then d else 1
                | none => 1) ∧
      (∀ gapRows : List dayGapRow, fundDateDaysMap = precalcDaysLoop gapRows [] →
        r.Days = (match gapRows.reverse.find?
                    (fun g => decide (g.FundID = r.FundID ∧ g.DateStr = nd.DateStr)) with
                  | some g => if 1 ≤ g.Days then g.Days else 1
                  | none => 1)) ∧
      1 ≤ r.Days ∧
      ∀ fund, fundMap.lookup r.FundID = some fund →
        r.ManagementFee
          = ((r.AUMValue * (fund.ManagementFeeRate / ((100 : Int) : F)))
              / (((if fund.ValuationBasis = 0 then 365 else fund.ValuationBasis : Int)) : F))
            * ((r.Days : Int) : F) := by
  obtain ⟨navMap, holdings, hn, hh, hmem⟩ :=
    processDate_emitted_sub rs flt w nd fundMap investorAgentMap fundDateDaysMap r hr
  obtain ⟨h, nav, a, hhm, hnav, _, hrow⟩ :=
    mem_buildRows nd fundMap investorAgentMap fundDateDaysMap navMap holdings r hmem
  refine ⟨navMap, holdings, h, nav, hn, hh, hhm, hnav, ?_⟩
  subst hrow
  have hdays : ∀ (found : Option Int),
      fundDateDaysMap.lookup (daysKey h.FundID nd.DateStr) = found →
      (mkRow nd fundMap fundDateDaysMap h nav a).Days
        = (match found with
            | some d => if 1 ≤ d then d else 1
            | none => 1) := by
    intro found hfound
    simp only [mkRow, hfound]
    cases found with
    | none => simp
    | some d =>
      simp only [Option.getD_some]
      by_cases h1 : d < 1
      · have h2 : ¬ 1 ≤ d := by omega
        simp [h1, h2]
      · have h2 : 1 ≤ d := by omega
        simp [h1, h2]
  refine ⟨rfl, rfl, rfl, rfl, rfl, rfl, ?_, ?_, ?_, ?_⟩
  · exact hdays _ rfl
  · intro gapRows hmap
    have hl := lookup_precalcDaysLoop gapRows [] h.FundID nd.DateStr
    rw [← hmap] at hl
    have hfid : (mkRow nd fundMap fundDateDaysMap h nav a).FundID = h.FundID := rfl
    rw [hfid]
    cases hfind : gapRows.reverse.find?
        (fun g => decide (g.FundID = h.FundID ∧ g.DateStr = nd.DateStr)) with
    | none =>
      rw [hfind] at hl
      simp only [List.lookup_nil] at hl
      exact hdays none hl
    | some g =>
      rw [hfind] at hl
      simp only [] at hl
      rw [hdays _ hl]
      by_cases h1 : g.Days < 1
      · have h2 : ¬ 1 ≤ g.Days := by omega
        simp [h1, h2]
      · have h2 : 1 ≤ g.Days := by omega
        simp [h1, h2]
  · simp only [mkRow]
    split <;> omega
  · intro fund hf
    simp only [mkRow] at hf ⊢
    rw [hf]
    rfl

/-- `processDate` when no statement fails and both loads gave something: it returns
the number of rows built, every row has gone through the insert statement, and
the totals of the rows are upserted. -/
theorem processDate_noFaults_loud (rs : ReadSide F) (w : World F) (nd : navDateRow)
    (fundMap : GoMap Int (fundInfo F)) (investorAgentMap fundDateDaysMap : GoMap String Int)
    (navMap : GoMap Int F) (holdings : List (holdingRow F))
    (hn : rs.loadNAVsForDate nd.DateStr = Except.ok navMap) (hne : navMap ≠ [])
    (hh : rs.loadHoldingsForDate nd.DateStr = Except.ok holdings) (hhe : holdings ≠ []) :
    (processDate rs noFaults w nd fundMap investorAgentMap fundDateDaysMap).2
      = ((buildRows nd fundMap investorAgentMap fundDateDaysMap navMap holdings []).length,
          none) ∧
    (processDate rs noFaults w nd fundMap investorAgentMap fundDateDaysMap).1.aum_investor_daily
      = (buildRows nd fundMap investorAgentMap fundDateDaysMap navMap holdings []).foldl
          insertIgnore w.aum_investor_daily ∧
    ∃ now,
      (processDate rs noFaults w nd fundMap investorAgentMap fundDateDaysMap).1.aum_daily
        = upsertAumDaily w.aum_daily nd.DateStr
            (sumTotals (buildRows nd fundMap investorAgentMap fundDateDaysMap navMap holdings [])
              (0, 0)).1
            (sumTotals (buildRows nd fundMap investorAgentMap fundDateDaysMap navMap holdings [])
              (0, 0)).2 now := by
  have hpu := processDate_upsert rs noFaults w nd fundMap investorAgentMap fundDateDaysMap
    navMap holdings hn hne hh hhe
  generalize buildRows nd fundMap investorAgentMap fundDateDaysMap navMap holdings [] = rows at *
  obtain ⟨h1, h2⟩ := insertLoop_noFaults rows rows.length 0
    { w with log := w.log ++ [Event.processDate nd] } 0 (by omega)
  obtain ⟨-, -, hd, -⟩ := insertLoop_spec noFaults rows rows.length 0
    { w with log := w.log ++ [Event.processDate nd] } 0 (by omega)
  have herr : (insertLoop noFaults rows { w with log := w.log ++ [Event.processDate nd] }
      0 0).2.2 = none := by rw [h1]
  have hcnt : (insertLoop noFaults rows { w with log := w.log ++ [Event.processDate nd] }
      0 0).2.1 = rows.length := by rw [h1]; simp
  rw [hpu herr]
  simp only [List.drop_zero] at h2
  generalize (insertLoop noFaults rows { w with log := w.log ++ [Event.processDate nd] } 0 0).1
    = w1 at *
  have hok := insertAumDaily_ok noFaults w1 nd.DateStr (sumTotals rows (0, 0)).1
    (sumTotals rows (0, 0)).2 rfl
  have hud := (insertAumDaily_aum_daily noFaults w1 nd.DateStr (sumTotals rows (0, 0)).1
    (sumTotals rows (0, 0)).2).1 hok
  refine ⟨?_, ?_, w1.clock, ?_⟩
  · simp only [hok, hcnt]
  · simp only [insertAumDaily_aum_investor_daily, h2]
  · simp only [hud, hd]

theorem buildRows_noNavs (nd : navDateRow) (fundMap : GoMap Int (fundInfo F))
    (investorAgentMap fundDateDaysMap : GoMap String Int) (holdings : List (holdingRow F)) :
    buildRows nd fundMap investorAgentMap fundDateDaysMap [] holdings [] = [] := by
  rw [buildRows_eq_filterMap]
  simp

/-- The rows sent by `processDate` are an initial part of the rows built from the
two loads, and all of them when it returns no error. -/
theorem processDate_emitted (rs : ReadSide F) (flt : Faults) (w : World F)
    (nd : navDateRow) (fundMap : GoMap Int (fundInfo F))
    (investorAgentMap fundDateDaysMap : GoMap String Int) (navMap : GoMap Int F)
    (holdings : List (holdingRow F))
    (hn : rs.loadNAVsForDate nd.DateStr = Except.ok navMap)
    (hh : rs.loadHoldingsForDate nd.DateStr = Except.ok holdings) :
    (batchesOf (newCalls w
        (processDate rs flt w nd fundMap investorAgentMap fundDateDaysMap).1)).flatten
      <+: buildRows nd fundMap investorAgentMap fundDateDaysMap navMap holdings [] ∧
    ((processDate rs flt w nd fundMap investorAgentMap fundDateDaysMap).2.2 = none →
      (batchesOf (newCalls w
          (processDate rs flt w nd fundMap investorAgentMap fundDateDaysMap).1)).flatten
        = buildRows nd fundMap investorAgentMap fundDateDaysMap navMap holdings []) := by
  by_cases hne : navMap = []
  · subst hne
    rw [processDate_noNavs rs flt w nd fundMap investorAgentMap fundDateDaysMap hn,
      newCalls_of_log w _ [Event.processDate nd] rfl, buildRows_noNavs]
    simp [batchesOf]
  · by_cases hhe : holdings = []
    · subst hhe
      rw [processDate_noHoldings rs flt w nd fundMap investorAgentMap fundDateDaysMap navMap
        hn hne hh, newCalls_of_log w _ [Event.processDate nd] rfl]
      simp [batchesOf, buildRows]
    · obtain ⟨bevs, uevs, hlog, _, hpre, _, _, _, hu⟩ :=
        processDate_loud_trace rs flt w nd fundMap investorAgentMap fundDateDaysMap navMap
          holdings hn hne hh hhe
      rw [newCalls_of_log w _ _ hlog]
      have hb : batchesOf (Event.processDate nd :: (bevs ++ uevs)) = batchesOf bevs := by
        rcases hu with ⟨hu, _⟩ | ⟨hu, _⟩ <;> simp [batchesOf, batchesOf_append, hu]
      rw [hb]
      refine ⟨hpre, ?_⟩
      intro hnone
      rcases hu with ⟨_, _, hne2, _⟩ | ⟨_, _, hall, _⟩
      · exact absurd hnone hne2
      · exact hall

/-- C2. With `navMap` and `holdings` the results of the two loads for the date:
the rows built by `processDate` are, in order, one row for each holding whose
`FundID` is a key of `navMap` and whose `InvestorID` is a key of the agent map,
each with that holding's investor, fund and units, the agent mapped to the
investor and the date, and nothing else; the rows sent to the store are an
initial part of these rows, and all of them when `processDate` returns no error;
and when no store statement fails `processDate` returns no error, so a dropped
holding is not an error. -/
theorem processDate_rows_exact (rs : ReadSide F) (flt : Faults) (w : World F)
    (nd : navDateRow) (fundMap : GoMap Int (fundInfo F))
    (investorAgentMap fundDateDaysMap : GoMap String Int) (navMap : GoMap Int F)
    (holdings : List (holdingRow F))
    (hn : rs.loadNAVsForDate nd.DateStr = Except.ok navMap)
    (hh : rs.loadHoldingsForDate nd.DateStr = Except.ok holdings) :
    (buildRows nd fundMap investorAgentMap fundDateDaysMap navMap holdings []).map
        (fun r => (r.InvestorID, r.FundID, r.Units, some r.AgentID, r.DateStr))
      = (holdings.filter (fun h =>
            (navMap.lookup h.FundID).isSome && (investorAgentMap.lookup h.InvestorID).isSome)).map
          (fun h =>
            (h.InvestorID, h.FundID, h.UnitsAfter, investorAgentMap.lookup h.InvestorID,
              nd.DateStr)) ∧
    (batchesOf (newCalls w
        (processDate rs flt w nd fundMap investorAgentMap fundDateDaysMap).1)).flatten
      <+: buildRows nd fundMap investorAgentMap fundDateDaysMap navMap holdings [] ∧
    ((processDate rs flt w nd fundMap investorAgentMap fundDateDaysMap).2.2 = none →
      (batchesOf (newCalls w
          (processDate rs flt w nd fundMap investorAgentMap fundDateDaysMap).1)).flatten
        = buildRows nd fundMap investorAgentMap fundDateDaysMap navMap holdings []) ∧
    (processDate rs noFaults w nd fundMap investorAgentMap fundDateDaysMap).2.2 = none := by
  refine ⟨?_, (processDate_emitted rs flt w nd fundMap investorAgentMap fundDateDaysMap navMap
    holdings hn hh).1, (processDate_emitted rs flt w nd fundMap investorAgentMap fundDateDaysMap
    navMap holdings hn hh).2, ?_⟩
  · rw [buildRows_eq_filterMap]
    simp only [List.nil_append]
    clear hh
    induction holdings with
    | nil => simp
    | cons h hs ih =>
      cases hnav : navMap.lookup h.FundID with
      | none => simp [List.filterMap_cons, List.filter_cons, hnav, ih]
      | some nav =>
        cases ha : investorAgentMap.lookup h.InvestorID with
        | none => simp [List.filterMap_cons, List.filter_cons, hnav, ha, ih]
        | some a =>
          simp only [List.filterMap_cons, List.filter_cons, hnav, ha, Option.some_bind,
            Option.map_some', Option.isSome_some, Bool.and_self, if_true, List.map_cons, ih]
          rfl
  · by_cases hne : navMap = []
    · subst hne
      rw [processDate_noNavs rs noFaults w nd fundMap investorAgentMap fundDateDaysMap hn]
    · by_cases hhe : holdings = []
      · subst hhe
        rw [processDate_noHoldings rs noFaults w nd fundMap investorAgentMap fundDateDaysMap
          navMap hn hne hh]
      · rw [(processDate_noFaults_loud rs w nd fundMap investorAgentMap fundDateDaysMap navMap
          holdings hn hne hh hhe).1]

/-- C3. Whenever a call of `processDate` reaches the aggregate upsert, the upsert
is for the date processed and the pair `(aumValue, managementFee)` it carries is
the sum, from 0 and in row order, of `AUMValue` and of `ManagementFee` over the
concatenation of all the chunks the call sent to the store. -/
theorem processDate_totals (rs : ReadSide F) (flt : Faults) (w : World F)
    (nd : navDateRow) (fundMap : GoMap Int (fundInfo F))
    (investorAgentMap fundDateDaysMap : GoMap String Int)
    (d : String) (a f : F) (e : Option Err)
    (hu : Event.insertAumDaily d a f e ∈ newCalls w
      (processDate rs flt w nd fundMap investorAgentMap fundDateDaysMap).1) :
    d = nd.DateStr ∧
    a = (((batchesOf (newCalls w
          (processDate rs flt w nd fundMap investorAgentMap fundDateDaysMap).1)).flatten).map
          (fun r => r.AUMValue)).foldl (fun s x => s + x) 0 ∧
    f = (((batchesOf (newCalls w
          (processDate rs flt w nd fundMap investorAgentMap fundDateDaysMap).1)).flatten).map
          (fun r => r.ManagementFee)).foldl (fun s x => s + x) 0 := by
  cases hq : quietResult rs nd with
  | some q =>
    rw [processDate_quiet rs flt w nd fundMap investorAgentMap fundDateDaysMap q hq] at hu
    rw [newCalls_of_log w _ [Event.processDate nd] rfl] at hu
    simp at hu
  | none =>
    obtain ⟨navMap, holdings, hn, hne, hh, hhe⟩ := quietResult_none rs nd hq
    obtain ⟨bevs, uevs, hlog, hbatch, _, _, _, _, hcase⟩ :=
      processDate_loud_trace rs flt w nd fundMap investorAgentMap fundDateDaysMap navMap holdings
        hn hne hh hhe
    rw [newCalls_of_log w _ _ hlog] at hu ⊢
    have hnb : Event.insertAumDaily d a f e ∉ bevs := by
      intro hmem
      have := hbatch _ hmem
      simp [Event.isBatch] at this
    rcases hcase with ⟨hu0, _⟩ | ⟨hu1, _, hall, _⟩
    · subst hu0
      simp [hnb] at hu
    · have hb : batchesOf (Event.processDate nd :: (bevs ++ uevs)) = batchesOf bevs := by
        simp [batchesOf, batchesOf_append, hu1]
      rw [hb, hall]
      rw [hu1] at hu
      have heq : Event.insertAumDaily d a f e = Event.insertAumDaily nd.DateStr
          (sumTotals (buildRows nd fundMap investorAgentMap fundDateDaysMap navMap holdings [])
            (0, 0)).1
          (sumTotals (buildRows nd fundMap investorAgentMap fundDateDaysMap navMap holdings [])
            (0, 0)).2
          (processDate rs flt w nd fundMap investorAgentMap fundDateDaysMap).2.2 := by
        rcases List.mem_cons.mp hu with h | h
        · cases h
        · rcases List.mem_append.mp h with h | h
          · exact absurd h hnb
          · exact List.mem_singleton.mp h
      injection heq with h1 h2 h3 _
      have hs := sumTotals_eq_foldl
        (buildRows nd fundMap investorAgentMap fundDateDaysMap navMap holdings [])
        ((0 : F), (0 : F))
      refine ⟨h1, ?_, ?_⟩
      · rw [h2, hs]
      · rw [h3, hs]

theorem quietResult_navError (rs : ReadSide F) (nd : navDateRow) (e : Err)
    (h : rs.loadNAVsForDate nd.DateStr = Except.error e) :
    quietResult rs nd = some (some e) := by
  unfold quietResult
  simp [h]

theorem quietResult_holdingsError (rs : ReadSide F) (nd : navDateRow) (navMap : GoMap Int F)
    (e : Err) (hn : rs.loadNAVsForDate nd.DateStr = Except.ok navMap) (hne : navMap ≠ [])
    (h : rs.loadHoldingsForDate nd.DateStr = Except.error e) :
    quietResult rs nd = some (some e) := by
  have h0 : ¬ navMap.length = 0 := fun h => hne (List.length_eq_zero.mp h)
  unfold quietResult
  simp [hn, h, h0]

theorem last_of_not_dropLast {α : Type} (l : List α) (x : α) (hx : x ∈ l)
    (hn : x ∉ l.dropLast) : l.getLast? = some x := by
  cases hl : l.getLast? with
  | none =>
    have : l = [] := List.getLast?_eq_none_iff.mp hl
    subst this
    simp at hx
  | some a =>
    have hsplit := List.dropLast_append_getLast? a hl
    rw [← hsplit] at hx
    rcases List.mem_append.mp hx with hx | hx
    · exact absurd hx hn
    · simp at hx
      rw [hx]

/-- C5. The calls of `processDate` are its chunk inserts followed by at most one
aggregate upsert: the chunk inserts (`bevs`) go through the rows in order; a
chunk insert is followed by another call only if it succeeded; the upsert
(`uevs`), when there is one, is for the date and comes after every chunk insert
of the date has succeeded.  If the NAV load or the holdings load fails,
`processDate` returns that error and makes no call; if a chunk insert fails,
`processDate` returns the error of that insert, which is then its last call, and
there is no upsert.  Without an upsert `aum_daily` is as before the call, so a
date that had no aggregate row still has none. -/
theorem processDate_commit_marker (rs : ReadSide F) (flt : Faults) (w : World F)
    (nd : navDateRow) (fundMap : GoMap Int (fundInfo F))
    (investorAgentMap fundDateDaysMap : GoMap String Int) :
    ∃ bevs uevs : List (Event F),
      newCalls w (processDate rs flt w nd fundMap investorAgentMap fundDateDaysMap).1
        = Event.processDate nd :: (bevs ++ uevs) ∧
      (∀ e ∈ bevs, e.isBatch = true) ∧
      (∀ navMap holdings, rs.loadNAVsForDate nd.DateStr = Except.ok navMap →
        rs.loadHoldingsForDate nd.DateStr = Except.ok holdings →
        (batchesOf bevs).flatten
          <+: buildRows nd fundMap investorAgentMap fundDateDaysMap navMap holdings []) ∧
      (∀ e ∈ bevs.dropLast, e.err = none) ∧
      (uevs = [] ∨
        ((∃ a f e, uevs = [Event.insertAumDaily nd.DateStr a f e]) ∧
          (∀ e ∈ bevs, e.err = none) ∧
          (∀ navMap holdings, rs.loadNAVsForDate nd.DateStr = Except.ok navMap →
            rs.loadHoldingsForDate nd.DateStr = Except.ok holdings →
            (batchesOf bevs).flatten
              = buildRows nd fundMap investorAgentMap fundDateDaysMap navMap holdings []))) ∧
      (∀ e, rs.loadNAVsForDate nd.DateStr = Except.error e →
        (processDate rs flt w nd fundMap investorAgentMap fundDateDaysMap).2.2 = some e ∧
        bevs = [] ∧ uevs = []) ∧
      (∀ navMap e, rs.loadNAVsForDate nd.DateStr = Except.ok navMap → navMap ≠ [] →
        rs.loadHoldingsForDate nd.DateStr = Except.error e →
        (processDate rs flt w nd fundMap investorAgentMap fundDateDaysMap).2.2 = some e ∧
        bevs = [] ∧ uevs = []) ∧
      (∀ ev ∈ bevs, ev.err ≠ none →
        (processDate rs flt w nd fundMap investorAgentMap fundDateDaysMap).2.2 = ev.err ∧
        bevs.getLast? = some ev ∧ uevs = []) ∧
      (uevs = [] →
        (processDate rs flt w nd fundMap investorAgentMap fundDateDaysMap).1.aum_daily
          = w.aum_daily ∧
        (nd.DateStr ∉ w.aum_daily.map (fun r => r.date) →
          nd.DateStr ∉ (processDate rs flt w nd fundMap investorAgentMap
            fundDateDaysMap).1.aum_daily.map (fun r => r.date))) := by
  cases hq : quietResult rs nd with
  | some q =>
    have hp := processDate_quiet rs flt w nd fundMap investorAgentMap fundDateDaysMap q hq
    refine ⟨[], [], ?_, ?_, ?_, ?_, Or.inl rfl, ?_, ?_, ?_, ?_⟩
    · rw [hp]
      exact newCalls_of_log w _ [Event.processDate nd] rfl
    · simp
    · intro navMap holdings _ _
      simp [batchesOf]
    · simp
    · intro e he
      rw [quietResult_navError rs nd e he] at hq
      rw [hp]
      simp at hq
      simp [hq]
    · intro navMap e hn hne he
      rw [quietResult_holdingsError rs nd navMap e hn hne he] at hq
      rw [hp]
      simp at hq
      simp [hq]
    · simp
    · intro _
      rw [hp]
      simp
  | none =>
    obtain ⟨navMap, holdings, hn, hne, hh, hhe⟩ := quietResult_none rs nd hq
    obtain ⟨bevs, uevs, hlog, hbatch, hpre, _, _, hdl, hcase⟩ :=
      processDate_loud_trace rs flt w nd fundMap investorAgentMap fundDateDaysMap navMap holdings
        hn hne hh hhe
    refine ⟨bevs, uevs, newCalls_of_log w _ _ hlog, hbatch, ?_, hdl, ?_, ?_, ?_, ?_, ?_⟩
    · intro navMap' holdings' hn' hh'
      rw [hn] at hn'
      rw [hh] at hh'
      cases hn'
      cases hh'
      exact hpre
    · rcases hcase with ⟨hu0, _⟩ | ⟨hu1, hall, hfl, _⟩
      · exact Or.inl hu0
      · refine Or.inr ⟨⟨_, _, _, hu1⟩, hall, ?_⟩
        intro navMap' holdings' hn' hh'
        rw [hn] at hn'
        rw [hh] at hh'
        cases hn'
        cases hh'
        exact hfl
    · intro e he
      rw [hn] at he
      cases he
    · intro navMap' e _ _ he
      rw [hh] at he
      cases he
    · intro ev hev herr
      rcases hcase with ⟨hu0, hlast, _, _⟩ | ⟨_, hall, _⟩
      · have hl := last_of_not_dropLast bevs ev hev (fun hmem => herr (hdl ev hmem))
        refine ⟨?_, hl, hu0⟩
        rw [hlast, hl]
        rfl
      · exact absurd (hall ev hev) herr
    · intro hu0
      rcases hcase with ⟨_, _, _, hd⟩ | ⟨hu1, _⟩
      · rw [hd]
        exact ⟨rfl, fun h => h⟩
      · rw [hu1] at hu0
        simp at hu0

/-! ## `Verify` and the date filter of `Generate` -/

theorem lookup_dateSet {α : Type} (t : List α) (key : α → String) (d : String) :
    ((t.map (fun r => (key r, true))).lookup d).getD false = decide (d ∈ t.map key) := by
  induction t with
  | nil => simp
  | cons r rs ih =>
    simp only [List.map_cons, List.lookup_cons]
    by_cases h : d = key r
    · subst h
      simp
    · have h2 : (d == key r) = false := by simpa using h
      rw [h2]
      simp only [ih]
      simp [h]

theorem collectMissing_eq (aumDateSet : GoMap String Bool) (navDates : List navDateRow)
    (missing : List String) :
    collectMissing aumDateSet navDates missing
      = missing ++ (navDates.filter
          (fun nd => !((aumDateSet.lookup nd.DateStr).getD false))).map (fun nd => nd.DateStr) := by
  induction navDates generalizing missing with
  | nil => simp [collectMissing]
  | cons nd nds ih =>
    unfold collectMissing
    by_cases h : (!((aumDateSet.lookup nd.DateStr).getD false)) = true
    · simp only [h, if_true, ih, List.filter_cons, List.map_cons, List.append_assoc,
        List.singleton_append]
    · simp only [h, if_false, ih, List.filter_cons]
      simp

theorem selectToProcess_eq (aumDailyDates : GoMap String Bool) (navDates : List navDateRow)
    (toProcess : List navDateRow) :
    selectToProcess aumDailyDates navDates toProcess
      = toProcess ++ navDates.filter
          (fun nd => !((aumDailyDates.lookup nd.DateStr).getD false)) := by
  induction navDates generalizing toProcess with
  | nil => simp [selectToProcess]
  | cons nd nds ih =>
    unfold selectToProcess
    by_cases h : (!((aumDailyDates.lookup nd.DateStr).getD false)) = true
    · simp only [h, if_true, ih, List.filter_cons, List.append_assoc, List.singleton_append]
    · simp only [h, if_false, ih, List.filter_cons]
      simp

theorem Verify_log (rs : ReadSide F) (flt : Faults) (w : World F) :
    (Verify rs flt w).1.log = w.log ++ [Event.Verify] ∧
    (Verify rs flt w).1.aum_investor_daily = w.aum_investor_daily ∧
    (Verify rs flt w).1.aum_daily = w.aum_daily := by
  unfold Verify
  simp only []
  split
  · simp
  · split
    · simp [World.tick]
    · split
      · simp [World.tick]
      · split
        · simp [World.tick]
        · split <;> simp [World.tick]

theorem Verify_ok (rs : ReadSide F) (flt : Faults) (w : World F) (navDates : List navDateRow)
    (holdingsCount : Nat) (hn : rs.loadNAVDates = Except.ok navDates)
    (hc : rs.countHoldings = Except.ok holdingsCount)
    (h1 : flt w.clock 0 = none) (h2 : flt (w.clock + 1) 0 = none)
    (h3 : flt (w.clock + 1) 1 = none) :
    (Verify rs flt w).2
      = Except.ok ⟨navDates.length, w.aum_investor_daily.length, holdingsCount,
          reportMissing ((navDates.filter (fun nd =>
            decide (nd.DateStr ∉ w.aum_investor_daily.map (fun r => r.DateStr)))).map
              (fun nd => nd.DateStr))⟩ := by
  unfold Verify
  simp only [hn, hc, h1, h2, h3, World.tick, collectMissing_eq, List.nil_append]
  have hf : (fun nd : navDateRow =>
        !((List.lookup nd.DateStr
            (w.aum_investor_daily.map (fun r => (r.DateStr, true)))).getD false))
      = (fun nd : navDateRow =>
          decide (nd.DateStr ∉ w.aum_investor_daily.map (fun r => r.DateStr))) := by
    funext nd
    rw [lookup_dateSet w.aum_investor_daily (fun r => r.DateStr) nd.DateStr]
    by_cases hm : nd.DateStr ∈ w.aum_investor_daily.map (fun r => r.DateStr)
    · simp only [hm, decide_True, Bool.not_true, not_true_eq_false, decide_False]
    · simp only [hm, decide_False, Bool.not_false, not_false_eq_true, decide_True]
  rw [hf]

/-- C9. When its reads succeed, `Verify` returns `nil` and what it prints is
determined by `missing`, the NAV dates that are the date of no row of
`aum_investor_daily`, in NAV-date order (ascending when the NAV dates are): it
prints SUCCESS exactly when `missing` is empty, that is when every NAV date is
covered; otherwise it prints a WARNING with the number `m` of missing dates, the
first `min 10 m` of them, and the remainder `m - 10` when `m > 10`.  A NAV date
that has an `aum_daily` row but no `aum_investor_daily` row is in `missing`. -/
theorem Verify_missing (rs : ReadSide F) (flt : Faults) (w : World F)
    (navDates : List navDateRow) (holdingsCount : Nat)
    (hn : rs.loadNAVDates = Except.ok navDates)
    (hc : rs.countHoldings = Except.ok holdingsCount)
    (h1 : flt w.clock 0 = none) (h2 : flt (w.clock + 1) 0 = none)
    (h3 : flt (w.clock + 1) 1 = none) :
    ∃ (rep : VerifyReport) (missing : List String),
      (Verify rs flt w).2 = Except.ok rep ∧
      missing = (navDates.filter (fun nd =>
          decide (nd.DateStr ∉ w.aum_investor_daily.map (fun r => r.DateStr)))).map
            (fun nd => nd.DateStr) ∧
      (rep.outcome = Outcome.success ↔ missing = []) ∧
      (rep.outcome = Outcome.success ↔
        ∀ nd ∈ navDates, nd.DateStr ∈ w.aum_investor_daily.map (fun r => r.DateStr)) ∧
      (missing ≠ [] →
        rep.outcome = Outcome.warning missing.length (missing.take (min 10 missing.length))
          (if 10 < missing.length then some (missing.length - 10) else none)) ∧
      (navDates.Pairwise (fun a b => a.DateStr < b.DateStr) →
        missing.Pairwise (fun a b => a < b)) ∧
      (∀ nd ∈ navDates, nd.DateStr ∈ w.aum_daily.map (fun r => r.date) →
        nd.DateStr ∉ w.aum_investor_daily.map (fun r => r.DateStr) →
        nd.DateStr ∈ missing ∧ rep.outcome ≠ Outcome.success) := by
  refine ⟨_, _, Verify_ok rs flt w navDates holdingsCount hn hc h1 h2 h3, rfl, ?_⟩
  simp only []
  generalize hm : (navDates.filter (fun nd =>
      decide (nd.DateStr ∉ w.aum_investor_daily.map (fun r => r.DateStr)))).map
        (fun nd => nd.DateStr) = missing
  have hsucc : reportMissing missing = Outcome.success ↔ missing = [] := by
    unfold reportMissing
    constructor
    · intro h
      by_cases h0 : missing.length = 0
      · exact List.length_eq_zero.mp h0
      · simp only [h0, if_false] at h
        split at h <;> cases h
    · intro h
      simp [h]
  have hcov : missing = [] ↔
      ∀ nd ∈ navDates, nd.DateStr ∈ w.aum_investor_daily.map (fun r => r.DateStr) := by
    rw [← hm]
    simp only [List.map_eq_nil_iff, List.filter_eq_nil_iff, decide_eq_true_eq, not_not]
  have hmem : ∀ nd ∈ navDates,
      nd.DateStr ∉ w.aum_investor_daily.map (fun r => r.DateStr) → nd.DateStr ∈ missing := by
    intro nd hnd hnot
    rw [← hm]
    exact List.mem_map.mpr ⟨nd, List.mem_filter.mpr ⟨hnd, by simpa using hnot⟩, rfl⟩
  refine ⟨hsucc, hsucc.trans hcov, ?_, ?_, ?_⟩
  · intro hne
    have h0 : ¬ missing.length = 0 := fun h => hne (List.length_eq_zero.mp h)
    unfold reportMissing
    simp only [h0, if_false]
    by_cases h10 : missing.length ≤ 10
    · have h10' : ¬ 10 < missing.length := by omega
      simp only [h10, if_true, h10', if_false, min_eq_right h10, List.take_length]
    · have h10' : 10 < missing.length := by omega
      simp only [h10, if_false, h10', if_true, min_eq_left (Nat.le_of_lt h10')]
  · intro hp
    rw [← hm]
    exact (hp.filter _).map _ (fun a b hab => hab)
  · intro nd hnd _ hnot
    have hin := hmem nd hnd hnot
    refine ⟨hin, ?_⟩
    intro hs
    rw [hsucc.mp hs] at hin
    simp at hin

/-! ## `Generate` -/

theorem processDate_log_dates (rs : ReadSide F) (flt : Faults) (w : World F) (nd : navDateRow)
    (fundMap : GoMap Int (fundInfo F)) (investorAgentMap fundDateDaysMap : GoMap String Int) :
    ∃ evs : List (Event F),
      (processDate rs flt w nd fundMap investorAgentMap fundDateDaysMap).1.log
        = w.log ++ Event.processDate nd :: evs ∧ datesOf evs = [] := by
  cases hq : quietResult rs nd with
  | some q =>
    rw [processDate_quiet rs flt w nd fundMap investorAgentMap fundDateDaysMap q hq]
    exact ⟨[], rfl, rfl⟩
  | none =>
    obtain ⟨navMap, holdings, hn, hne, hh, hhe⟩ := quietResult_none rs nd hq
    obtain ⟨bevs, uevs, hlog, hbatch, _, _, _, _, hcase⟩ :=
      processDate_loud_trace rs flt w nd fundMap investorAgentMap fundDateDaysMap navMap holdings
        hn hne hh hhe
    refine ⟨bevs ++ uevs, hlog, ?_⟩
    rw [datesOf_append, datesOf_batches bevs hbatch]
    rcases hcase with ⟨hu, _⟩ | ⟨hu, _⟩ <;> simp [hu, datesOf]

theorem runWorkers_log (rs : ReadSide F) (flt : Faults) (fundMap : GoMap Int (fundInfo F))
    (investorAgentMap fundDateDaysMap : GoMap String Int) (nds : List navDateRow) :
    ∀ (w : World F) (a b : Nat), ∃ evs : List (Event F),
      (runWorkers rs flt fundMap investorAgentMap fundDateDaysMap nds (w, a, b)).1.log
        = w.log ++ evs ∧ datesOf evs = nds := by
  induction nds with
  | nil =>
    intro w a b
    exact ⟨[], by simp [runWorkers], rfl⟩
  | cons nd nds ih =>
    intro w a b
    obtain ⟨evs0, hlog0, hd0⟩ :=
      processDate_log_dates rs flt w nd fundMap investorAgentMap fundDateDaysMap
    unfold runWorkers
    simp only []
    split
    · obtain ⟨evs, hlog, hd⟩ :=
        ih (processDate rs flt w nd fundMap investorAgentMap fundDateDaysMap).1 a b
      refine ⟨Event.processDate nd :: evs0 ++ evs, ?_, ?_⟩
      · rw [hlog, hlog0]; simp
      · rw [datesOf_append]
        simp [datesOf, hd0, hd]
    · obtain ⟨evs, hlog, hd⟩ :=
        ih (processDate rs flt w nd fundMap investorAgentMap fundDateDaysMap).1
          (a + (processDate rs flt w nd fundMap investorAgentMap fundDateDaysMap).2.1) (b + 1)
      refine ⟨Event.processDate nd :: evs0 ++ evs, ?_, ?_⟩
      · rw [hlog, hlog0]; simp
      · rw [datesOf_append]
        simp [datesOf, hd0, hd]

theorem loadAumDailyDates_ok (flt : Faults) (w : World F) (h0 : flt w.clock 0 = none)
    (h1 : flt w.clock 1 = none) :
    loadAumDailyDates flt w = (w.tick, Except.ok (w.aum_daily.map (fun r => (r.date, true)))) := by
  unfold loadAumDailyDates
  simp [h0, h1]

theorem selectToProcess_table (t : List (aumDailyRow F)) (navDates : List navDateRow) :
    selectToProcess (t.map (fun r => (r.date, true))) navDates []
      = navDates.filter (fun nd => decide (nd.DateStr ∉ t.map (fun r => r.date))) := by
  rw [selectToProcess_eq]
  have hf : (fun nd : navDateRow =>
        !((List.lookup nd.DateStr (t.map (fun r => (r.date, true)))).getD false))
      = (fun nd : navDateRow => decide (nd.DateStr ∉ t.map (fun r => r.date))) := by
    funext nd
    rw [lookup_dateSet t (fun r => r.date) nd.DateStr]
    by_cases hm : nd.DateStr ∈ t.map (fun r => r.date)
    · simp only [hm, decide_True, Bool.not_true, not_true_eq_false, decide_False]
    · simp only [hm, decide_False, Bool.not_false, not_false_eq_true, decide_True]
  rw [hf]
  simp

/-- The calls of a run of `Generate` whose first two loads succeed: only `Verify`
when nothing is to be processed or a later reference load fails before the
dispatch (then not even `Verify`), otherwise `processDate` on each date to
process, in order, and then `Verify`. -/
theorem Generate_dates (rs : ReadSide F) (flt : Faults) (w : World F)
    (navDates : List navDateRow) (hn : rs.loadNAVDates = Except.ok navDates)
    (h0 : flt w.clock 0 = none) (h1 : flt w.clock 1 = none) :
    (navDates.filter (fun nd => decide (nd.DateStr ∉ w.aum_daily.map (fun r => r.date))) = [] →
      newCalls w (Generate rs flt w).world = [Event.Verify]) ∧
    (datesOf (newCalls w (Generate rs flt w).world) = [] ∨
      datesOf (newCalls w (Generate rs flt w).world)
        = navDates.filter (fun nd => decide (nd.DateStr ∉ w.aum_daily.map (fun r => r.date)))) ∧
    ((∃ fundMap, rs.loadFunds = Except.ok fundMap) →
      (∃ investorAgentMap, rs.loadAgentInvestors = Except.ok investorAgentMap) →
      (∃ fundDateDaysMap, rs.precalcDays = Except.ok fundDateDaysMap) →
      datesOf (newCalls w (Generate rs flt w).world)
        = navDates.filter
            (fun nd => decide (nd.DateStr ∉ w.aum_daily.map (fun r => r.date)))) := by
  have hl := loadAumDailyDates_ok flt w h0 h1
  have hsel := selectToProcess_table w.aum_daily navDates
  generalize navDates.filter
    (fun nd => decide (nd.DateStr ∉ w.aum_daily.map (fun r => r.date))) = toProcess at *
  have hcalls : ∀ w' : World F, w'.log = w.tick.log ++ [Event.Verify] →
      newCalls w w' = [Event.Verify] := by
    intro w' h
    exact newCalls_of_log w w' _ (by rw [h]; rfl)
  unfold Generate
  simp only [hn, hl, hsel]
  by_cases hlen : toProcess.length = 0
  · have hnil : toProcess = [] := List.length_eq_zero.mp hlen
    simp only [hlen, if_true]
    have hv := hcalls _ (Verify_log rs flt w.tick).1
    refine ⟨fun _ => hv, Or.inl ?_, fun _ _ _ => ?_⟩
    · rw [hv]; rfl
    · rw [hv, hnil]; rfl
  · have hne : toProcess ≠ [] := fun h => hlen (by rw [h]; rfl)
    simp only [hlen, if_false]
    refine ⟨fun h => absurd h hne, ?_, ?_⟩
    · cases hf : rs.loadFunds with
      | error e =>
        left
        simp only []
        rw [newCalls_of_log w w.tick [] (by simp [World.tick])]
        rfl
      | ok fundMap =>
        cases ha : rs.loadAgentInvestors with
        | error e =>
          left
          simp only []
          rw [newCalls_of_log w w.tick [] (by simp [World.tick])]
          rfl
        | ok investorAgentMap =>
          cases hd : rs.precalcDays with
          | error e =>
            left
            simp only []
            rw [newCalls_of_log w w.tick [] (by simp [World.tick])]
            rfl
          | ok fundDateDaysMap =>
            right
            simp only []
            obtain ⟨evs, hlog, hdates⟩ := runWorkers_log rs flt fundMap investorAgentMap
              fundDateDaysMap toProcess w.tick 0 0
            have hv := (Verify_log rs flt (runWorkers rs flt fundMap investorAgentMap
              fundDateDaysMap toProcess (w.tick, 0, 0)).1).1
            rw [newCalls_of_log w _ (evs ++ [Event.Verify]) (by
              rw [hv, hlog]; simp [World.tick])]
            rw [datesOf_append, hdates]
            simp [datesOf]
    · rintro ⟨fundMap, hf⟩ ⟨investorAgentMap, ha⟩ ⟨fundDateDaysMap, hd⟩
      simp only [hf, ha, hd]
      obtain ⟨evs, hlog, hdates⟩ := runWorkers_log rs flt fundMap investorAgentMap
        fundDateDaysMap toProcess w.tick 0 0
      have hv := (Verify_log rs flt (runWorkers rs flt fundMap investorAgentMap
        fundDateDaysMap toProcess (w.tick, 0, 0)).1).1
      rw [newCalls_of_log w _ (evs ++ [Event.Verify]) (by
        rw [hv, hlog]; simp [World.tick])]
      rw [datesOf_append, hdates]
      simp [datesOf]

/-- C4. In a run of `Generate` that has loaded the NAV dates and the completed
dates, `toProcess` is the list of the NAV dates whose date has no `aum_daily`
row, each as often as in the NAV-date list (once, when the NAV dates are
distinct) and in the original order.  The dates passed to `processDate` are
exactly `toProcess`, in that order, when the three remaining reference loads
succeed, and none otherwise; no date with an `aum_daily` row before the run is
ever passed to `processDate`; and when `toProcess` is empty the only call made
is `Verify`, whose result `Generate` returns. -/
theorem Generate_dispatch (rs : ReadSide F) (flt : Faults) (w : World F)
    (navDates : List navDateRow) (hn : rs.loadNAVDates = Except.ok navDates)
    (h0 : flt w.clock 0 = none) (h1 : flt w.clock 1 = none) :
    ∃ toProcess : List navDateRow,
      toProcess = navDates.filter
        (fun nd => decide (nd.DateStr ∉ w.aum_daily.map (fun r => r.date))) ∧
      (∀ nd, nd ∈ toProcess ↔
        (nd ∈ navDates ∧ nd.DateStr ∉ w.aum_daily.map (fun r => r.date))) ∧
      toProcess.Sublist navDates ∧
      (navDates.Nodup → toProcess.Nodup) ∧
      ((∃ fundMap, rs.loadFunds = Except.ok fundMap) →
        (∃ investorAgentMap, rs.loadAgentInvestors = Except.ok investorAgentMap) →
        (∃ fundDateDaysMap, rs.precalcDays = Except.ok fundDateDaysMap) →
        datesOf (newCalls w (Generate rs flt w).world) = toProcess) ∧
      (datesOf (newCalls w (Generate rs flt w).world) = [] ∨
        datesOf (newCalls w (Generate rs flt w).world) = toProcess) ∧
      (∀ nd ∈ datesOf (newCalls w (Generate rs flt w).world),
        nd.DateStr ∉ w.aum_daily.map (fun r => r.date)) ∧
      (toProcess = [] → newCalls w (Generate rs flt w).world = [Event.Verify] ∧
        (Generate rs flt w).result = (Verify rs flt w.tick).2) := by
  obtain ⟨hempty, hor, hall⟩ := Generate_dates rs flt w navDates hn h0 h1
  refine ⟨_, rfl, ?_, List.filter_sublist _, fun hnd => hnd.filter _, hall, hor, ?_, ?_⟩
  · intro nd
    simp only [List.mem_filter, decide_eq_true_eq]
  · intro nd hnd
    rcases hor with h | h
    · rw [h] at hnd
      simp at hnd
    · rw [h] at hnd
      have := (List.mem_filter.mp hnd).2
      simpa using this
  · intro hnil
    refine ⟨hempty hnil, ?_⟩
    have hl := loadAumDailyDates_ok flt w h0 h1
    have hsel := selectToProcess_table w.aum_daily navDates
    unfold Generate
    simp only [hn, hl, hsel, hnil, List.length_nil, if_true]

/-! ## Re-runs -/

theorem processDate_quiet_tables (rs : ReadSide F) (flt : Faults) (w : World F)
    (nd : navDateRow) (fundMap : GoMap Int (fundInfo F))
    (investorAgentMap fundDateDaysMap : GoMap String Int)
    (hq : quietResult rs nd ≠ none) :
    (processDate rs flt w nd fundMap investorAgentMap fundDateDaysMap).1.aum_investor_daily
      = w.aum_investor_daily ∧
    (processDate rs flt w nd fundMap investorAgentMap fundDateDaysMap).1.aum_daily
      = w.aum_daily ∧
    newCalls w (processDate rs flt w nd fundMap investorAgentMap fundDateDaysMap).1
      = [Event.processDate nd] := by
  cases hq' : quietResult rs nd with
  | none => exact absurd hq' hq
  | some q =>
    rw [processDate_quiet rs flt w nd fundMap investorAgentMap fundDateDaysMap q hq']
    exact ⟨rfl, rfl, newCalls_of_log w _ [Event.processDate nd] rfl⟩

theorem processDate_noFaults_dates (rs : ReadSide F) (w : World F)
    (nd : navDateRow) (fundMap : GoMap Int (fundInfo F))
    (investorAgentMap fundDateDaysMap : GoMap String Int) :
    (∀ x ∈ w.aum_daily.map (fun r => r.date),
      x ∈ (processDate rs noFaults w nd fundMap investorAgentMap
        fundDateDaysMap).1.aum_daily.map (fun r => r.date)) ∧
    (quietResult rs nd = none →
      nd.DateStr ∈ (processDate rs noFaults w nd fundMap investorAgentMap
        fundDateDaysMap).1.aum_daily.map (fun r => r.date)) := by
  cases hq : quietResult rs nd with
  | some q =>
    have h := (processDate_quiet_tables rs noFaults w nd fundMap investorAgentMap
      fundDateDaysMap (by rw [hq]; simp)).2.1
    rw [h]
    exact ⟨fun x hx => hx, fun h => by cases h⟩
  | none =>
    obtain ⟨navMap, holdings, hn, hne, hh, hhe⟩ := quietResult_none rs nd hq
    obtain ⟨_, _, now, hd⟩ := processDate_noFaults_loud rs w nd fundMap investorAgentMap
      fundDateDaysMap navMap holdings hn hne hh hhe
    rw [hd]
    exact ⟨fun x hx => upsertAumDaily_dates_mono _ _ _ _ _ x hx,
      fun _ => upsertAumDaily_mem_date _ _ _ _ _⟩

theorem runWorkers_quiet_tables (rs : ReadSide F) (flt : Faults)
    (fundMap : GoMap Int (fundInfo F)) (investorAgentMap fundDateDaysMap : GoMap String Int)
    (nds : List navDateRow) (hq : ∀ nd ∈ nds, quietResult rs nd ≠ none) :
    ∀ (w : World F) (a b : Nat),
      (runWorkers rs flt fundMap investorAgentMap fundDateDaysMap nds
        (w, a, b)).1.aum_investor_daily = w.aum_investor_daily ∧
      (runWorkers rs flt fundMap investorAgentMap fundDateDaysMap nds
        (w, a, b)).1.aum_daily = w.aum_daily := by
  induction nds with
  | nil =>
    intro w a b
    simp [runWorkers]
  | cons nd nds ih =>
    intro w a b
    have ht := processDate_quiet_tables rs flt w nd fundMap investorAgentMap fundDateDaysMap
      (hq nd (by simp))
    have ih' := ih (fun x hx => hq x (by simp [hx]))
    unfold runWorkers
    simp only []
    split
    · have := ih' (processDate rs flt w nd fundMap investorAgentMap fundDateDaysMap).1 a b
      rw [this.1, this.2, ht.1, ht.2.1]
      exact ⟨rfl, rfl⟩
    · have := ih' (processDate rs flt w nd fundMap investorAgentMap fundDateDaysMap).1
        (a + (processDate rs flt w nd fundMap investorAgentMap fundDateDaysMap).2.1) (b + 1)
      rw [this.1, this.2, ht.1, ht.2.1]
      exact ⟨rfl, rfl⟩

theorem runWorkers_noFaults_dates (rs : ReadSide F)
    (fundMap : GoMap Int (fundInfo F)) (investorAgentMap fundDateDaysMap : GoMap String Int)
    (nds : List navDateRow) :
    ∀ (w : World F) (a b : Nat),
      (∀ x ∈ w.aum_daily.map (fun r => r.date),
        x ∈ (runWorkers rs noFaults fundMap investorAgentMap fundDateDaysMap nds
          (w, a, b)).1.aum_daily.map (fun r => r.date)) ∧
      (∀ nd ∈ nds, quietResult rs nd = none →
        nd.DateStr ∈ (runWorkers rs noFaults fundMap investorAgentMap fundDateDaysMap nds
          (w, a, b)).1.aum_daily.map (fun r => r.date)) := by
  induction nds with
  | nil =>
    intro w a b
    simp [runWorkers]
  | cons nd nds ih =>
    intro w a b
    obtain ⟨hmono, hloud⟩ := processDate_noFaults_dates rs w nd fundMap investorAgentMap
      fundDateDaysMap
    have key : ∀ a' b',
        (∀ x ∈ w.aum_daily.map (fun r => r.date),
          x ∈ (runWorkers rs noFaults fundMap investorAgentMap fundDateDaysMap nds
            ((processDate rs noFaults w nd fundMap investorAgentMap fundDateDaysMap).1,
              a', b')).1.aum_daily.map (fun r => r.date)) ∧
        (∀ x ∈ nd :: nds, quietResult rs x = none →
          x.DateStr ∈ (runWorkers rs noFaults fundMap investorAgentMap fundDateDaysMap nds
            ((processDate rs noFaults w nd fundMap investorAgentMap fundDateDaysMap).1,
              a', b')).1.aum_daily.map (fun r => r.date)) := by
      intro a' b'
      obtain ⟨h1, h2⟩ := ih (processDate rs noFaults w nd fundMap investorAgentMap
        fundDateDaysMap).1 a' b'
      refine ⟨fun x hx => h1 x (hmono x hx), ?_⟩
      intro x hx hqx
      rcases List.mem_cons.mp hx with hx | hx
      · subst hx
        exact h1 _ (hloud hqx)
      · exact h2 x hx hqx
    unfold runWorkers
    simp only []
    split
    · exact key _ _
    · exact key _ _

/-- A run of `Generate` in which nothing fails in the store leaves both tables as
they are when it stops before the dispatch, or when every NAV date either has
its `aum_daily` row or makes `processDate` return before the row loop. -/
theorem Generate_unchanged (rs : ReadSide F) (w : World F)
    (h : (∀ fundMap investorAgentMap fundDateDaysMap, rs.loadFunds = Except.ok fundMap →
          rs.loadAgentInvestors = Except.ok investorAgentMap →
          rs.precalcDays = Except.ok fundDateDaysMap →
          ∀ navDates, rs.loadNAVDates = Except.ok navDates → ∀ nd ∈ navDates,
            nd.DateStr ∈ w.aum_daily.map (fun r => r.date) ∨ quietResult rs nd ≠ none)) :
    (Generate rs noFaults w).world.aum_investor_daily = w.aum_investor_daily ∧
    (Generate rs noFaults w).world.aum_daily = w.aum_daily := by
  unfold Generate
  cases hn : rs.loadNAVDates with
  | error e => exact ⟨rfl, rfl⟩
  | ok navDates =>
    have hl := loadAumDailyDates_ok noFaults w rfl rfl
    have hsel := selectToProcess_table w.aum_daily navDates
    simp only [hl, hsel]
    by_cases hlen : (navDates.filter
        (fun nd => decide (nd.DateStr ∉ w.aum_daily.map (fun r => r.date)))).length = 0
    · simp only [hlen, if_true]
      have hv := Verify_log rs noFaults w.tick
      exact ⟨hv.2.1, hv.2.2⟩
    · simp only [hlen, if_false]
      cases hf : rs.loadFunds with
      | error e => exact ⟨rfl, rfl⟩
      | ok fundMap =>
        cases ha : rs.loadAgentInvestors with
        | error e => exact ⟨rfl, rfl⟩
        | ok investorAgentMap =>
          cases hd : rs.precalcDays with
          | error e => exact ⟨rfl, rfl⟩
          | ok fundDateDaysMap =>
            simp only []
            have hq : ∀ nd ∈ navDates.filter
                (fun nd => decide (nd.DateStr ∉ w.aum_daily.map (fun r => r.date))),
                quietResult rs nd ≠ none := by
              intro nd hnd
              obtain ⟨hmem, hnot⟩ := List.mem_filter.mp hnd
              rcases h fundMap investorAgentMap fundDateDaysMap hf ha hd navDates hn nd hmem
                with hin | hq
              · exact absurd hin (by simpa using hnot)
              · exact hq
            have hr := runWorkers_quiet_tables rs noFaults fundMap investorAgentMap
              fundDateDaysMap _ hq w.tick 0 0
            have hv := Verify_log rs noFaults (runWorkers rs noFaults fundMap investorAgentMap
              fundDateDaysMap (navDates.filter
                (fun nd => decide (nd.DateStr ∉ w.aum_daily.map (fun r => r.date))))
              (w.tick, 0, 0)).1
            rw [hv.2.1, hv.2.2, hr.1, hr.2]
            exact ⟨rfl, rfl⟩

/-- After a run of `Generate` in which nothing fails in the store and the
reference loads succeed, every NAV date either has its `aum_daily` row or makes
`processDate` return before the row loop. -/
theorem Generate_settles (rs : ReadSide F) (w : World F)
    (fundMap : GoMap Int (fundInfo F)) (investorAgentMap fundDateDaysMap : GoMap String Int)
    (navDates : List navDateRow)
    (hf : rs.loadFunds = Except.ok fundMap)
    (ha : rs.loadAgentInvestors = Except.ok investorAgentMap)
    (hd : rs.precalcDays = Except.ok fundDateDaysMap)
    (hn : rs.loadNAVDates = Except.ok navDates) :
    ∀ nd ∈ navDates,
      nd.DateStr ∈ (Generate rs noFaults w).world.aum_daily.map (fun r => r.date) ∨
      quietResult rs nd ≠ none := by
  intro nd hnd
  unfold Generate
  have hl := loadAumDailyDates_ok noFaults w rfl rfl
  have hsel := selectToProcess_table w.aum_daily navDates
  simp only [hn, hl, hsel, hf, ha, hd]
  by_cases hin : nd.DateStr ∈ w.aum_daily.map (fun r => r.date)
  · left
    by_cases hlen : (navDates.filter
        (fun nd => decide (nd.DateStr ∉ w.aum_daily.map (fun r => r.date)))).length = 0
    · simp only [hlen, if_true]
      rw [(Verify_log rs noFaults w.tick).2.2]
      exact hin
    · simp only [hlen, if_false]
      rw [(Verify_log rs noFaults _).2.2]
      exact (runWorkers_noFaults_dates rs fundMap investorAgentMap fundDateDaysMap _
        w.tick 0 0).1 nd.DateStr hin
  · have hmem : nd ∈ navDates.filter
        (fun nd => decide (nd.DateStr ∉ w.aum_daily.map (fun r => r.date))) :=
      List.mem_filter.mpr ⟨hnd, by simpa using hin⟩
    have hlen : ¬ (navDates.filter
        (fun nd => decide (nd.DateStr ∉ w.aum_daily.map (fun r => r.date)))).length = 0 := by
      intro h0
      rw [List.length_eq_zero.mp h0] at hmem
      simp at hmem
    simp only [hlen, if_false]
    by_cases hq : quietResult rs nd = none
    · left
      rw [(Verify_log rs noFaults _).2.2]
      exact (runWorkers_noFaults_dates rs fundMap investorAgentMap fundDateDaysMap _
        w.tick 0 0).2 nd hmem hq
    · exact Or.inr hq

theorem processDate_noFaults_upserts (rs : ReadSide F) (w : World F) (nd : navDateRow)
    (fundMap : GoMap Int (fundInfo F)) (investorAgentMap fundDateDaysMap : GoMap String Int)
    (navMap : GoMap Int F) (holdings : List (holdingRow F))
    (hn : rs.loadNAVsForDate nd.DateStr = Except.ok navMap) (hne : navMap ≠ [])
    (hh : rs.loadHoldingsForDate nd.DateStr = Except.ok holdings) (hhe : holdings ≠ [])
    (d : String) (a f : F) (e : Option Err) :
    Event.insertAumDaily d a f e
        ∈ newCalls w (processDate rs noFaults w nd fundMap investorAgentMap fundDateDaysMap).1 ↔
      Event.insertAumDaily d a f e = Event.insertAumDaily nd.DateStr
        (sumTotals (buildRows nd fundMap investorAgentMap fundDateDaysMap navMap holdings [])
          (0, 0)).1
        (sumTotals (buildRows nd fundMap investorAgentMap fundDateDaysMap navMap holdings [])
          (0, 0)).2 none := by
  obtain ⟨bevs, uevs, hlog, hbatch, _, _, _, _, hcase⟩ :=
    processDate_loud_trace rs noFaults w nd fundMap investorAgentMap fundDateDaysMap navMap
      holdings hn hne hh hhe
  have hnone : (processDate rs noFaults w nd fundMap investorAgentMap fundDateDaysMap).2.2
      = none := by
    rw [(processDate_noFaults_loud rs w nd fundMap investorAgentMap fundDateDaysMap navMap
      holdings hn hne hh hhe).1]
  rw [newCalls_of_log w _ _ hlog]
  have hnb : Event.insertAumDaily d a f e ∉ bevs := by
    intro hmem
    have := hbatch _ hmem
    simp [Event.isBatch] at this
  rcases hcase with ⟨_, _, hne2, _⟩ | ⟨hu1, _⟩
  · exact absurd hnone hne2
  · rw [hu1, hnone]
    constructor
    · intro hu
      rcases List.mem_cons.mp hu with h | h
      · cases h
      · rcases List.mem_append.mp h with h | h
        · exact absurd h hnb
        · exact List.mem_singleton.mp h
    · intro heq
      rw [heq]
      simp

/-- C6. Over the two tables as keyed tables (`aum_investor_daily` with
insert-ignore on `(investor_id, fund_id, date)`, `aum_daily` with upsert on
`date`), with the same read-side inputs and no failing statement:
a second run of `Generate` after a first one leaves `aum_investor_daily` and
`aum_daily` exactly as the first run left them (no row added, no field changed);
and a second call of `processDate` for the same date leaves `aum_investor_daily`
exactly as the first call left it, upserts the same totals as the first call,
and leaves every field of `aum_daily` but `updated_at` unchanged. -/
theorem rerun_idempotent (rs : ReadSide F) (w : World F) (nd : navDateRow)
    (fundMap : GoMap Int (fundInfo F)) (investorAgentMap fundDateDaysMap : GoMap String Int) :
    ((Generate rs noFaults (Generate rs noFaults w).world).world.aum_investor_daily
        = (Generate rs noFaults w).world.aum_investor_daily ∧
      (Generate rs noFaults (Generate rs noFaults w).world).world.aum_daily
        = (Generate rs noFaults w).world.aum_daily) ∧
    ((processDate rs noFaults
          (processDate rs noFaults w nd fundMap investorAgentMap fundDateDaysMap).1
          nd fundMap investorAgentMap fundDateDaysMap).1.aum_investor_daily
        = (processDate rs noFaults w nd fundMap investorAgentMap
            fundDateDaysMap).1.aum_investor_daily ∧
      (processDate rs noFaults
          (processDate rs noFaults w nd fundMap investorAgentMap fundDateDaysMap).1
          nd fundMap investorAgentMap fundDateDaysMap).1.aum_daily.map
          (fun r => (r.date, r.aum_value, r.management_fee, r.created_at))
        = (processDate rs noFaults w nd fundMap investorAgentMap
            fundDateDaysMap).1.aum_daily.map
          (fun r => (r.date, r.aum_value, r.management_fee, r.created_at)) ∧
      (∀ d a f e,
        Event.insertAumDaily d a f e ∈ newCalls
            (processDate rs noFaults w nd fundMap investorAgentMap fundDateDaysMap).1
            (processDate rs noFaults
              (processDate rs noFaults w nd fundMap investorAgentMap fundDateDaysMap).1
              nd fundMap investorAgentMap fundDateDaysMap).1 ↔
          Event.insertAumDaily d a f e ∈ newCalls w
            (processDate rs noFaults w nd fundMap investorAgentMap fundDateDaysMap).1)) := by
  constructor
  · apply Generate_unchanged rs (Generate rs noFaults w).world
    intro fm am dm hf ha hd navDates hn nd' hnd'
    exact Generate_settles rs w fm am dm navDates hf ha hd hn nd' hnd'
  · cases hq : quietResult rs nd with
    | some q =>
      have hq' : quietResult rs nd ≠ none := by rw [hq]; simp
      have h1 := processDate_quiet_tables rs noFaults w nd fundMap investorAgentMap
        fundDateDaysMap hq'
      have h2 := processDate_quiet_tables rs noFaults
        (processDate rs noFaults w nd fundMap investorAgentMap fundDateDaysMap).1 nd fundMap
        investorAgentMap fundDateDaysMap hq'
      refine ⟨h2.1, by rw [h2.2.1], ?_⟩
      intro d a f e
      rw [h2.2.2, h1.2.2]
    | none =>
      obtain ⟨navMap, holdings, hn, hne, hh, hhe⟩ := quietResult_none rs nd hq
      obtain ⟨_, ht1, n₁, hd1⟩ := processDate_noFaults_loud rs w nd fundMap investorAgentMap
        fundDateDaysMap navMap holdings hn hne hh hhe
      obtain ⟨_, ht2, n₂, hd2⟩ := processDate_noFaults_loud rs
        (processDate rs noFaults w nd fundMap investorAgentMap fundDateDaysMap).1 nd fundMap
        investorAgentMap fundDateDaysMap navMap holdings hn hne hh hhe
      refine ⟨?_, ?_, ?_⟩
      · rw [ht2, ht1, foldl_insertIgnore_again]
      · rw [hd2, hd1, upsertAumDaily_again]
      · intro d a f e
        rw [processDate_noFaults_upserts rs _ nd fundMap investorAgentMap fundDateDaysMap navMap
            holdings hn hne hh hhe,
          processDate_noFaults_upserts rs w nd fundMap investorAgentMap fundDateDaysMap navMap
            holdings hn hne hh hhe]

end PipelineLemmas

/-! ## The scenarios, evaluated -/

section ScenarioLemmas

theorem gaps1_eq :
    gaps1 = [("1-2024-01-02", 1), ("1-2024-01-01", 3), ("1-2023-12-29", 1)] := by
  decide

theorem buildRows_day2 :
    buildRows day2 funds1 agents1 gaps1 [(1, 25 / 2)] holdings1 [] = [row2] := by
  have hk : daysKey 1 "2024-01-02" = "1-2024-01-02" := by decide
  rw [gaps1_eq]
  simp [buildRows, holdings1, agents1, List.lookup, mkRow, funds1, day2, row2, hk]
  norm_num

theorem processDate_day2_log :
    (processDate scenario1 noFaults emptyWorld day2 funds1 agents1 gaps1).1.log
      = [Event.processDate day2, Event.insertAUMBatch [row2] 1 none,
         Event.insertAumDaily "2024-01-02" 1250 (1250 * 0.015 / 365) none] := by
  have hn : scenario1.loadNAVsForDate day2.DateStr = Except.ok [(1, 25 / 2)] := by
    simp [scenario1, day2]
  have hh : scenario1.loadHoldingsForDate day2.DateStr = Except.ok holdings1 := by
    simp [scenario1, day2]
  rw [processDate_upsert scenario1 noFaults emptyWorld day2 funds1 agents1 gaps1 _ _ hn (by simp)
    hh (by simp [holdings1])]
  · rw [insertAumDaily_log, buildRows_day2]
    simp [insertLoop_unfold, insertLoop_done, batchSize, insertAUMBatch, execLoop, noFaults,
      insertAumDaily, sumTotals, emptyWorld, row2, day2]
  · rw [buildRows_day2]
    simp [insertLoop_unfold, insertLoop_done, batchSize, insertAUMBatch, execLoop, noFaults]

theorem emitted_day2 :
    (batchesOf (newCalls emptyWorld
      (processDate scenario1 noFaults emptyWorld day2 funds1 agents1 gaps1).1)).flatten
      = [row2] := by
  rw [newCalls, processDate_day2_log]
  simp [emptyWorld, batchesOf]

theorem buildRows_day1 :
    buildRows day1 funds1 agents1 gaps1 [(1, 12)] holdings1 [] = [row1] := by
  have hk : daysKey 1 "2024-01-01" = "1-2024-01-01" := by decide
  rw [gaps1_eq]
  simp [buildRows, holdings1, agents1, List.lookup, mkRow, funds1, day1, row1, hk]
  norm_num

theorem emitted_day1 :
    (batchesOf (newCalls emptyWorld
      (processDate scenario1 noFaults emptyWorld day1 funds1 agents1 gaps1).1)).flatten
      = [row1] := by
  have hn : scenario1.loadNAVsForDate day1.DateStr = Except.ok [(1, 12)] := by
    simp [scenario1, day1]
  have hh : scenario1.loadHoldingsForDate day1.DateStr = Except.ok holdings1 := by
    simp [scenario1, day1]
  have hnone : (processDate scenario1 noFaults emptyWorld day1 funds1 agents1 gaps1).2.2
      = none := by
    rw [(processDate_noFaults_loud scenario1 emptyWorld day1 funds1 agents1 gaps1 [(1, 12)]
      holdings1 hn (by simp) hh (by simp [holdings1])).1]
  rw [(processDate_emitted scenario1 noFaults emptyWorld day1 funds1 agents1 gaps1 [(1, 12)]
    holdings1 hn hh).2 hnone, buildRows_day1]

/-- Witness for C1. On 2024-01-01 the row of `I1` in fund 1 has `Days = 3`, the gap
of the query row of fund 1 for that date, and three days of fee; on 2024-01-02
(scenario 1) units 100, NAV 12.5, rate 1.5, basis 365 and one day give
`AUMValue = 1250` and `ManagementFee = 1250 × 0.015 / 365`. -/
theorem processDate_row_values_witness :
    row1 ∈ (batchesOf (newCalls emptyWorld
      (processDate scenario1 noFaults emptyWorld day1 funds1 agents1 gaps1).1)).flatten ∧
    gaps1 = precalcDaysLoop gapRows1 [] ∧
    gapRows1.reverse.find? (fun g => decide (g.FundID = row1.FundID ∧ g.DateStr = day1.DateStr))
      = some ⟨1, "2024-01-01", 3⟩ ∧
    gaps1.lookup (toString row1.FundID ++ "-" ++ day1.DateStr) = some 3 ∧
    row1.Units = 100 ∧ row1.NavPerUnit = 12 ∧ row1.AUMValue = 1200 ∧ row1.Days = 3 ∧
    row1.ManagementFee = 1200 * 0.015 / 365 * 3 ∧
    row2 ∈ (batchesOf (newCalls emptyWorld
      (processDate scenario1 noFaults emptyWorld day2 funds1 agents1 gaps1).1)).flatten ∧
    row2.Units = 100 ∧ row2.NavPerUnit = 25 / 2 ∧ row2.AUMValue = 1250 ∧ row2.Days = 1 ∧
    row2.ManagementFee = 1250 * 0.015 / 365 ∧
    ∃ navMap holdings h navPerUnit,
      scenario1.loadNAVsForDate day1.DateStr = Except.ok navMap ∧
      scenario1.loadHoldingsForDate day1.DateStr = Except.ok holdings ∧
      h ∈ holdings ∧ navMap.lookup h.FundID = some navPerUnit ∧
      row1.InvestorID = h.InvestorID ∧ row1.FundID = h.FundID ∧ row1.DateStr = day1.DateStr ∧
      row1.Units = h.UnitsAfter ∧ row1.NavPerUnit = navPerUnit ∧
      row1.AUMValue = row1.Units * row1.NavPerUnit ∧
      row1.Days = (match gaps1.lookup (toString row1.FundID ++ "-" ++ day1.DateStr) with
                | some d => if 1 ≤ d then d else 1
                | none => 1) ∧
      (∀ gapRows : List dayGapRow, gaps1 = precalcDaysLoop gapRows [] →
        row1.Days = (match gapRows.reverse.find?
                    (fun g => decide (g.FundID = row1.FundID ∧ g.DateStr = day1.DateStr)) with
                  | some g => if 1 ≤ g.Days then g.Days else 1
                  | none => 1)) ∧
      1 ≤ row1.Days ∧
      ∀ fund, funds1.lookup row1.FundID = some fund →
        row1.ManagementFee
          = ((row1.AUMValue * (fund.ManagementFeeRate / ((100 : Int) : ℚ)))
              / (((if fund.ValuationBasis = 0 then 365 else fund.ValuationBasis : Int)) : ℚ))
            * ((row1.Days : Int) : ℚ) :=
  ⟨by rw [emitted_day1]; simp, rfl, by decide, by decide, rfl, rfl, rfl, rfl, rfl,
    by rw [emitted_day2]; simp, rfl, rfl, rfl, rfl, rfl,
    processDate_row_values scenario1 noFaults emptyWorld day1 funds1 agents1 gaps1 row1
      (by rw [emitted_day1]; simp)⟩

/-- Witness for C2: 2024-01-02 in the scenario, where the holding of `I2` (no
agent) and the holding in fund 2 (no NAV) are dropped. -/
theorem processDate_rows_exact_witness :
    scenario1.loadNAVsForDate day2.DateStr = Except.ok [(1, 25 / 2)] ∧
    scenario1.loadHoldingsForDate day2.DateStr = Except.ok holdings1 ∧
    (buildRows day2 funds1 agents1 gaps1 [(1, 25 / 2)] holdings1 []).map
        (fun r => (r.InvestorID, r.FundID, r.Units, some r.AgentID, r.DateStr))
      = (holdings1.filter (fun h =>
            (List.lookup h.FundID [((1 : Int), (25 / 2 : ℚ))]).isSome
              && (agents1.lookup h.InvestorID).isSome)).map
          (fun h =>
            (h.InvestorID, h.FundID, h.UnitsAfter, agents1.lookup h.InvestorID, day2.DateStr)) ∧
    (processDate scenario1 noFaults emptyWorld day2 funds1 agents1 gaps1).2.2 = none :=
  ⟨by simp [scenario1, day2], by simp [scenario1, day2],
    (processDate_rows_exact scenario1 noFaults emptyWorld day2 funds1 agents1 gaps1
      [(1, 25 / 2)] holdings1 (by simp [scenario1, day2]) (by simp [scenario1, day2])).1,
    (processDate_rows_exact scenario1 noFaults emptyWorld day2 funds1 agents1 gaps1
      [(1, 25 / 2)] holdings1 (by simp [scenario1, day2]) (by simp [scenario1, day2])).2.2.2⟩

/-- Witness for C3: the upsert of 2024-01-02 in the scenario. -/
theorem processDate_totals_witness :
    Event.insertAumDaily "2024-01-02" (1250 : ℚ) (1250 * 0.015 / 365) none
      ∈ newCalls emptyWorld
          (processDate scenario1 noFaults emptyWorld day2 funds1 agents1 gaps1).1 ∧
    "2024-01-02" = day2.DateStr ∧
    (1250 : ℚ) = (((batchesOf (newCalls emptyWorld
          (processDate scenario1 noFaults emptyWorld day2 funds1 agents1 gaps1).1)).flatten).map
          (fun r => r.AUMValue)).foldl (fun s x => s + x) 0 ∧
    (1250 * 0.015 / 365 : ℚ) = (((batchesOf (newCalls emptyWorld
          (processDate scenario1 noFaults emptyWorld day2 funds1 agents1 gaps1).1)).flatten).map
          (fun r => r.ManagementFee)).foldl (fun s x => s + x) 0 :=
  have hu : Event.insertAumDaily "2024-01-02" (1250 : ℚ) (1250 * 0.015 / 365) none
      ∈ newCalls emptyWorld
          (processDate scenario1 noFaults emptyWorld day2 funds1 agents1 gaps1).1 := by
    rw [newCalls, processDate_day2_log]
    simp [emptyWorld]
  ⟨hu, processDate_totals scenario1 noFaults emptyWorld day2 funds1 agents1 gaps1 _ _ _ _ hu⟩

/-- Witness for C4: the first run in the scenario, from the empty store. -/
theorem Generate_dispatch_witness :
    scenario1.loadNAVDates = Except.ok [day0, day1, day2] ∧
    noFaults emptyWorld.clock 0 = none ∧ noFaults emptyWorld.clock 1 = none ∧
    datesOf (newCalls emptyWorld (Generate scenario1 noFaults emptyWorld).world)
      = [day0, day1, day2] :=
  ⟨rfl, rfl, rfl,
    match Generate_dispatch scenario1 noFaults emptyWorld [day0, day1, day2] rfl rfl rfl with
    | ⟨_, htp, _, _, _, hall, _⟩ => by
      rw [hall ⟨funds1, rfl⟩ ⟨agents1, rfl⟩ ⟨gaps1, rfl⟩, htp]
      simp [emptyWorld]⟩

/-- Witness for C8: 10,001 rows go out as two slices. -/
theorem insertLoop_chunks_witness :
    (insertLoop noFaults (List.replicate 10001 row2) emptyWorld 0 0).2.2 = none ∧
    (batchesOf (newCalls emptyWorld
        (insertLoop noFaults (List.replicate 10001 row2) emptyWorld 0 0).1)).flatten
      = List.replicate 10001 row2 ∧
    (batchesOf (newCalls emptyWorld
        (insertLoop noFaults (List.replicate 10001 row2) emptyWorld 0 0).1)).length = 2 :=
  have hok : (insertLoop noFaults (List.replicate 10001 row2) emptyWorld 0 0).2.2 = none := by
    rw [(insertLoop_noFaults (List.replicate 10001 row2) _ 0 emptyWorld 0 (le_refl _)).1]
  ⟨hok, (insertLoop_chunks noFaults (List.replicate 10001 row2) emptyWorld hok).2.1, by
    rw [(insertLoop_chunks noFaults (List.replicate 10001 row2) emptyWorld hok).2.2.2.2.1,
      List.length_replicate]⟩

/-- Witness for C9: after 2024-01-02 alone has been processed in the scenario, the
two other NAV dates are reported missing. -/
theorem Verify_missing_witness :
    scenario1.loadNAVDates = Except.ok [day0, day1, day2] ∧
    scenario1.countHoldings = Except.ok 3 ∧
    (Verify scenario1 noFaults ⟨[row2], [], 0, []⟩).2
      = Except.ok ⟨3, 1, 3, Outcome.warning 2 ["2023-12-29", "2024-01-01"] none⟩ :=
  ⟨rfl, rfl,
    match Verify_missing scenario1 noFaults ⟨[row2], [], 0, []⟩ [day0, day1, day2] 3
        rfl rfl rfl rfl rfl with
    | ⟨rep, missing, hv, hm, _, _, hw, _, _⟩ => by
      have hmiss : missing = ["2023-12-29", "2024-01-01"] := by
        rw [hm]
        simp [row2, day0, day1, day2]
      rw [hv]
      have hout := hw (by rw [hmiss]; simp)
      rw [hmiss] at hout
      have h3 := Verify_ok scenario1 noFaults ⟨[row2], [], 0, []⟩ [day0, day1, day2] 3
        rfl rfl rfl rfl rfl
      rw [hv] at h3
      injection h3 with h3
      rw [h3] at hout ⊢
      simp at hout ⊢
      simpa using hout⟩

/-- C10, the code at the failing input. In the store left by a crash between the
row insert and the aggregate upsert of 2024-01-02, the row of that date is
already in `aum_investor_daily`; `processDate` for that date returns 1, and
`aum_investor_daily` after the call is what it was before: no row was added. -/
theorem processDate_count_on_rerun :
    (processDate scenario1 noFaults afterCrash day2 funds1 agents1 gaps1).2 = (1, none) ∧
    (processDate scenario1 noFaults afterCrash day2 funds1 agents1 gaps1).1.aum_investor_daily
      = afterCrash.aum_investor_daily ∧
    (processDate scenario1 noFaults afterCrash day2 funds1 agents1
        gaps1).1.aum_investor_daily.length
      - afterCrash.aum_investor_daily.length = 0 := by
  have hn : scenario1.loadNAVsForDate day2.DateStr = Except.ok [(1, 25 / 2)] := by
    simp [scenario1, day2]
  have hh : scenario1.loadHoldingsForDate day2.DateStr = Except.ok holdings1 := by
    simp [scenario1, day2]
  obtain ⟨h1, h2, _⟩ := processDate_noFaults_loud scenario1 afterCrash day2 funds1 agents1 gaps1
    [(1, 25 / 2)] holdings1 hn (by simp) hh (by simp [holdings1])
  rw [buildRows_day2] at h1 h2
  have ht : [row2].foldl insertIgnore afterCrash.aum_investor_daily
      = afterCrash.aum_investor_daily := by
    simp [afterCrash, insertIgnore, sameKey]
  rw [h1, h2, ht]
  simp

end ScenarioLemmas

end Aum
